import Mathlib

/-!
Shallow embedding of the retail analytics data generator / uploader
(`Data_Uploading.py`) and of the dashboard query layer
(`dashboard_retail.py`).

Modelling conventions:
* Python floats are modelled as rationals (`ℚ`); `round(x, k)` is modelled
  as round-half-to-even at `k` decimal places, which is Python's rounding
  mode (ties never matter for the properties proved here).
* Randomness is modelled by explicit streams of draws handed to each
  generator: a `Nat`-valued stream for `random.choice` / `random.randint`
  (the drawn value is reduced modulo the size of the range, as the library
  call would produce) and a `ℚ`-valued stream for `random.uniform(a, b)`,
  whose draws represent the unit sample `random.random()`-style value in
  `[0, 1]`.
* Dates are modelled by their integer day offsets (the only arithmetic the
  source performs on them).
* The database is remote; network effects of the uploader are modelled as
  an explicit event trace (bulk writes, sleeps, per-document fallback
  inserts, deletes), with the outcome of each bulk write injected through
  an oracle, mirroring how the source reacts to `BulkWriteError`,
  rate-limit `PyMongoError`s (messages matching 16500 / 429 /
  RequestRateTooLarge / TooManyRequests / RetryAfterMs) and other
  `PyMongoError`s.
-/

namespace Retail

/-! ### Module-level configuration constants (`Data_Uploading.py`, lines 31-35) -/

def RESET_DATABASE : Bool := false

def FORCE_UPLOAD : Bool := false

def MIN_DOCS_PER_COLLECTION : Nat := 50

def BATCH_SIZE : Nat := 5

def BATCH_DELAY : ℚ := 2

/-! ### Python primitives -/

/-- Round half to even, the rounding mode of Python's builtin `round`. -/
def roundHalfEven (x : ℚ) : ℤ :=
  if x - ⌊x⌋ < 1 / 2 then ⌊x⌋
  else if 1 / 2 < x - ⌊x⌋ then ⌊x⌋ + 1
  else if ⌊x⌋ % 2 = 0 then ⌊x⌋ else ⌊x⌋ + 1

/-- Python `round(x, 2)`. -/
def round2 (x : ℚ) : ℚ := (roundHalfEven (x * 100) : ℚ) / 100

/-- Python `round(x, 1)`. -/
def round1 (x : ℚ) : ℚ := (roundHalfEven (x * 10) : ℚ) / 10

/-- Python `random.choice(xs)` for a concrete draw `k`: the drawn index is
`k % xs.length` (`random.choice` raises on an empty list; the `default`
value is only reached in that error case). -/
def pyChoice [Inhabited α] (xs : List α) (k : Nat) : α :=
  xs.getD (k % xs.length) default

/-- Python `random.randint(a, b)` (inclusive bounds) for a concrete draw. -/
def pyRandint (a b k : Nat) : Nat := a + k % (b - a + 1)

/-- Python `random.uniform(a, b)` with unit sample `u ∈ [0, 1]`. -/
def pyUniform (a b u : ℚ) : ℚ := a + (b - a) * u

/-! ### Decimal formatting (`f'{i:04d}'` and friends) -/

/-- Little-endian decimal digits of `n`; the first argument is fuel
(`n` itself always suffices). -/
def toDigitsRev : Nat → Nat → List Nat
  | 0, _ => []
  | _ + 1, 0 => []
  | f + 1, n + 1 => ((n + 1) % 10) :: toDigitsRev f ((n + 1) / 10)

/-- Decimal digit characters of `n`, most significant first. -/
def decChars (n : Nat) : List Char :=
  ((toDigitsRev n n).map Nat.digitChar).reverse

/-- `toString n` for the string interpolations in generated names. -/
def natStr (n : Nat) : String := String.mk (decChars n)

/-- Characters of `f'{i:0{w}d}'`: decimal digits left-padded with `'0'`
to a minimum width of `w`. -/
def fmtPadChars (w i : Nat) : List Char :=
  let ds := decChars i
  List.replicate (w - ds.length) '0' ++ ds

/-- `f'P{i:04d}'`-style identifier: prefix character, then the zero-padded
decimal representation of `i`. -/
def idStr (c : Char) (w i : Nat) : String := String.mk (c :: fmtPadChars w i)

/-! ### Entity records -/

structure Product where
  id : String
  product_id : String
  name : String
  category : String
  brand : String
  price : ℚ
  cost : ℚ
  stock_quantity : Nat
  rating : ℚ
  num_reviews : Nat
  created_days_ago : Nat
deriving Inhabited, DecidableEq

structure Customer where
  id : String
  customer_id : String
  name : String
  email : String
  city : String
  state : String
  join_days_ago : Nat
  loyalty_tier : String
  total_spent : ℚ
  order_count : Nat
deriving Inhabited, DecidableEq

structure OrderItem where
  product_id : String
  product_name : String
  category : String
  quantity : Nat
  unit_price : ℚ
  item_total : ℚ
deriving Inhabited, DecidableEq

structure Order where
  order_id : String
  id : String
  customer_id : String
  customer_name : String
  customer_city : String
  customer_state : String
  order_days_ago : Nat
  items : List OrderItem
  total_amount : ℚ
  shipping_cost : ℚ
  tax : ℚ
  status : String
  payment_method : String
deriving Inhabited, DecidableEq

structure Review where
  review_id : String
  id : String
  order_id : String
  product_id : String
  product_name : String
  customer_id : String
  customer_name : String
  rating : Nat
  review_text : String
  review_days_after : Nat
  helpful_votes : Nat
deriving Inhabited, DecidableEq

/-! ### `generate_products` (lines 37-60) -/

def categories : List String :=
  ["Electronics", "Clothing", "Home & Garden", "Sports", "Books", "Toys",
   "Beauty", "Food"]

def brands : List String :=
  ["BrandA", "BrandB", "BrandC", "BrandD", "BrandE", "Generic"]

/-- Random draws consumed by `generate_products`, one stream per call
site, indexed by the loop variable `i`. -/
structure ProductRand where
  catR : Nat → Nat
  brandR : Nat → Nat
  priceU : Nat → ℚ
  costU : Nat → ℚ
  stockR : Nat → Nat
  ratingU : Nat → ℚ
  nrevR : Nat → Nat
  cdateR : Nat → Nat

/-- Unit samples of a `ProductRand` lie in `[0, 1]`. -/
def ProductRand.Valid (r : ProductRand) : Prop :=
  ∀ i, 0 ≤ r.priceU i ∧ r.priceU i ≤ 1 ∧ 0 ≤ r.costU i ∧ r.costU i ≤ 1 ∧
    0 ≤ r.ratingU i ∧ r.ratingU i ≤ 1

/-- Loop body of `generate_products` at index `i`. -/
def mkProduct (r : ProductRand) (i : Nat) : Product :=
  let category := pyChoice categories (r.catR i)
  let product_id := idStr 'P' 4 i
  { id := product_id
    product_id := product_id
    name := category ++ " Product " ++ natStr i
    category := category
    brand := pyChoice brands (r.brandR i)
    price := round2 (pyUniform 10 500 (r.priceU i))
    cost := round2 (pyUniform 5 250 (r.costU i))
    stock_quantity := pyRandint 0 500 (r.stockR i)
    rating := round1 (pyUniform 3 5 (r.ratingU i))
    num_reviews := pyRandint 0 200 (r.nrevR i)
    created_days_ago := pyRandint 30 365 (r.cdateR i) }

def generate_products (r : ProductRand) (n : Nat) : List Product :=
  (List.range n).map fun k => mkProduct r (k + 1)

/-! ### `generate_customers` (lines 62-85) -/

def cities : List String :=
  ["New York", "Los Angeles", "Chicago", "Houston", "Phoenix",
   "Philadelphia", "San Antonio", "San Diego", "Dallas", "San Jose"]

def states : List String :=
  ["NY", "CA", "IL", "TX", "AZ", "PA", "TX", "CA", "TX", "CA"]

def loyalty_tiers : List String := ["Bronze", "Silver", "Gold", "Platinum"]

structure CustomerRand where
  cityR : Nat → Nat
  joinR : Nat → Nat
  tierR : Nat → Nat

/-- Loop body of `generate_customers` at index `i`. -/
def mkCustomer (r : CustomerRand) (i : Nat) : Customer :=
  let city_idx := pyRandint 0 (cities.length - 1) (r.cityR i)
  let customer_id := idStr 'C' 5 i
  { id := customer_id
    customer_id := customer_id
    name := "Customer " ++ natStr i
    email := "customer" ++ natStr i ++ "@email.com"
    city := cities.getD city_idx ""
    state := states.getD city_idx ""
    join_days_ago := pyRandint 1 730 (r.joinR i)
    loyalty_tier := pyChoice loyalty_tiers (r.tierR i)
    total_spent := 0
    order_count := 0 }

def generate_customers (r : CustomerRand) (n : Nat) : List Customer :=
  (List.range n).map fun k => mkCustomer r (k + 1)

/-! ### `generate_orders` (lines 87-129) -/

def order_statuses : List String :=
  ["Completed", "Completed", "Completed", "Pending", "Shipped"]

def payment_methods : List String :=
  ["Credit Card", "Debit Card", "PayPal", "Cash"]

structure OrderRand where
  custR : Nat → Nat
  dateR : Nat → Nat
  nItemsR : Nat → Nat
  prodR : Nat → Nat → Nat
  qtyR : Nat → Nat → Nat
  shipU : Nat → ℚ
  statusR : Nat → Nat
  payR : Nat → Nat

def OrderRand.Valid (r : OrderRand) : Prop :=
  ∀ i, 0 ≤ r.shipU i ∧ r.shipU i ≤ 1

/-- The product / quantity pairs drawn by the inner item loop of order `i`
(`num_items = random.randint(1, 5)`, each item a product choice plus a
`random.randint(1, 3)` quantity). -/
def orderPicks (r : OrderRand) (products : List Product) (i : Nat) :
    List (Product × Nat) :=
  (List.range (pyRandint 1 5 (r.nItemsR i))).map fun j =>
    (pyChoice products (r.prodR i j), pyRandint 1 3 (r.qtyR i j))

/-- One line item: `item_total = round(product price * quantity, 2)`. -/
def mkItem (pq : Product × Nat) : OrderItem :=
  { product_id := pq.1.product_id
    product_name := pq.1.name
    category := pq.1.category
    quantity := pq.2
    unit_price := pq.1.price
    item_total := round2 (pq.1.price * pq.2) }

/-- Loop body of `generate_orders` at index `i`.  The local accumulator
`total_amount` holds the unrounded sum of `price * quantity`; the stored
`total_amount` field rounds it and `tax` rounds 8% of it. -/
def mkOrder (r : OrderRand) (customers : List Customer)
    (products : List Product) (i : Nat) : Order :=
  let customer := pyChoice customers (r.custR i)
  let picks := orderPicks r products i
  let total_amount := (picks.map fun pq => pq.1.price * (pq.2 : ℚ)).sum
  let oid := idStr 'O' 6 i
  { order_id := oid
    id := oid
    customer_id := customer.customer_id
    customer_name := customer.name
    customer_city := customer.city
    customer_state := customer.state
    order_days_ago := pyRandint 0 180 (r.dateR i)
    items := picks.map mkItem
    total_amount := round2 total_amount
    shipping_cost := round2 (pyUniform 5 15 (r.shipU i))
    tax := round2 (total_amount * (8 / 100))
    status := pyChoice order_statuses (r.statusR i)
    payment_method := pyChoice payment_methods (r.payR i) }

def generate_orders (r : OrderRand) (customers : List Customer)
    (products : List Product) (n : Nat) : List Order :=
  (List.range n).map fun k => mkOrder r customers products (k + 1)

/-! ### `generate_reviews` (lines 131-161) -/

/-- The `review_texts` dictionary, read with default `"Good product"`. -/
def review_text_for (rating : Nat) : String :=
  match rating with
  | 1 => "Very disappointed with this purchase. Would not recommend."
  | 2 => "Below expectations. Several issues encountered."
  | 3 => "Average product. Does the job but nothing special."
  | 4 => "Good product. Happy with the purchase overall."
  | 5 => "Excellent quality! Exceeded my expectations. Highly recommend!"
  | _ => "Good product"

structure ReviewRand where
  orderR : Nat → Nat
  itemR : Nat → Nat
  ratingR : Nat → Nat
  dateR : Nat → Nat
  votesR : Nat → Nat

/-- Loop body of `generate_reviews` at index `i`: pick an order; if it has
no items nothing is appended (`if order['items']:`), otherwise pick one of
its line items and build the review from the pair. -/
def mkReview (r : ReviewRand) (orders : List Order) (i : Nat) :
    Option Review :=
  let order := pyChoice orders (r.orderR i)
  if order.items.isEmpty then none
  else
    let item := pyChoice order.items (r.itemR i)
    let rating := pyRandint 1 5 (r.ratingR i)
    let rid := idStr 'R' 5 i
    some
      { review_id := rid
        id := rid
        order_id := order.order_id
        product_id := item.product_id
        product_name := item.product_name
        customer_id := order.customer_id
        customer_name := order.customer_name
        rating := rating
        review_text := review_text_for rating
        review_days_after := pyRandint 1 30 (r.dateR i)
        helpful_votes := pyRandint 0 50 (r.votesR i) }

def generate_reviews (r : ReviewRand) (orders : List Order) (n : Nat) :
    List Review :=
  (List.range n).filterMap fun k => mkReview r orders (k + 1)

/-! ### `insert_in_batches` (lines 211-261)

The batch loop `for i in range(0, total, batch_size): batch = data[i:i+batch_size]`
is modelled by `chunksOf`; each batch runs the `while attempt <= max_retries`
loop, whose outcome at every attempt is injected through a `WriteResult`
oracle.  The observable behaviour (bulk-write calls, sleeps, fallback
single-document inserts) is recorded as an event trace. -/

/-- Outcome of one `collection.bulk_write` call, as the source
distinguishes them: success; `BulkWriteError` carrying the partial insert
count; a `PyMongoError` whose message matches one of the rate-limit
markers (16500 / 429 / RequestRateTooLarge / TooManyRequests /
RetryAfterMs); or any other `PyMongoError`. -/
inductive WriteResult where
  | ok (inserted : Nat)
  | bulkErr (nInserted nErrors : Nat)
  | rateLimited
  | otherErr
deriving DecidableEq

/-- Observable upload actions: a bulk write (tagged with batch index,
number of documents in the request, and attempt number), a `time.sleep`,
a fallback `insert_one` (tagged with success), a `delete_many` page. -/
inductive UploadEvent where
  | bulkWrite (batchIdx docs attempt : Nat)
  | sleep (d : ℚ)
  | insertOne (batchIdx docIdx : Nat) (ok : Bool)
  | deleteMany (n : Nat)
deriving DecidableEq

/-- `max_retries = 5` (line 214). -/
def max_retries : Nat := 5

/-- `data[i:i+batch_size]` slices; fuel variant (structural recursion so
that concrete traces evaluate inside the kernel). -/
def chunksGo (bs : Nat) : Nat → List α → List (List α)
  | _, [] => []
  | 0, _ :: _ => []
  | f + 1, x :: xs => ((x :: xs).take bs) :: chunksGo bs f ((x :: xs).drop bs)

/-- The successive batches `data[0:bs], data[bs:2*bs], ...`.  `bs = 0`
cannot occur (Python `range` with step 0 raises). -/
def chunksOf (bs : Nat) (l : List α) : List (List α) :=
  if bs = 0 then [] else chunksGo bs l.length l

/-- The `while attempt <= max_retries` loop for a single batch.  Returns
the number of documents counted as inserted together with the emitted
events.  `fuel` starts at `max_retries + 1`, matching the maximal number
of loop iterations; the `fuel = 0` case is unreachable.

* success: count inserted, `time.sleep(BATCH_DELAY)`, break;
* `BulkWriteError`: count the partial `nInserted`,
  `time.sleep(BATCH_DELAY * 2)`, break;
* rate-limited `PyMongoError`: `backoff = (2 ** attempt) * BATCH_DELAY +
  random.random() * 0.5` (the jitter stream holds the already scaled
  `random.random() * 0.5` term), `time.sleep(backoff)`, `attempt += 1`,
  break out if `attempt > max_retries` else continue;
* other `PyMongoError`: fall back to per-document `insert_one`, sleeping
  0.5 s after each success, then break. -/
def batchLoop (res : Nat → WriteResult) (jitter : Nat → ℚ)
    (single : Nat → Bool) (batchIdx docs : Nat) :
    Nat → Nat → Nat × List UploadEvent
  | 0, _ => (0, [])
  | fuel + 1, attempt =>
    let ev := UploadEvent.bulkWrite batchIdx docs attempt
    match res attempt with
    | .ok n => (n, [ev, .sleep BATCH_DELAY])
    | .bulkErr nIns _ => (nIns, [ev, .sleep (BATCH_DELAY * 2)])
    | .rateLimited =>
      let backoff := 2 ^ attempt * BATCH_DELAY + jitter attempt
      if max_retries < attempt + 1 then (0, [ev, .sleep backoff])
      else
        let rest := batchLoop res jitter single batchIdx docs fuel (attempt + 1)
        (rest.1, ev :: .sleep backoff :: rest.2)
    | .otherErr =>
      let docEvents := (List.range docs).map fun j =>
        if single j then [UploadEvent.insertOne batchIdx j true, .sleep (1 / 2)]
        else [UploadEvent.insertOne batchIdx j false]
      ((List.range docs).countP single, ev :: docEvents.flatten)

/-- `insert_in_batches(collection, data, batch_size=10)`: run the attempt
loop on every batch in order, summing the inserted counts and
concatenating the traces.  The oracles are indexed by batch number first.
Call sites in `upload_to_cosmos_db` pass no `batch_size`, so they use the
default `10`. -/
def insert_in_batches (res : Nat → Nat → WriteResult)
    (jitter : Nat → Nat → ℚ) (single : Nat → Nat → Bool)
    (data : List α) (batch_size : Nat) : Nat × List UploadEvent :=
  let batches := chunksOf batch_size data
  let results := (List.range batches.length).map fun b =>
    batchLoop (res b) (jitter b) (single b) b (batches.getD b []).length
      (max_retries + 1) 0
  ((results.map Prod.fst).sum, (results.map Prod.snd).flatten)

/-- The default value of the `batch_size` parameter of
`insert_in_batches` (line 211). -/
def insert_in_batches_default_batch_size : Nat := 10

/-! ### `clear_collection_safely` (lines 263-277) and the per-entity
upload gate (lines 279-325) -/

/-- Paginated delete loop: pages of at most 20 ids, `time.sleep(1.5)`
after each page.  Modelled on the resident document count; fueled for
kernel computability. -/
def clearGo : Nat → Nat → List UploadEvent
  | 0, _ => []
  | _ + 1, 0 => []
  | f + 1, n + 1 =>
    UploadEvent.deleteMany (min (n + 1) 20) :: .sleep (3 / 2) ::
      clearGo f ((n + 1) - 20)

def clear_collection_safely (count : Nat) : Nat × List UploadEvent :=
  (count, clearGo count count)

/-- One `Uploading <kind>...` block of `upload_to_cosmos_db`:
`count_documents`, then
`if FORCE_UPLOAD or count < MIN_DOCS_PER_COLLECTION:` clear (only when
forcing over a non-empty collection) and insert, `else` skip with no
writes at all.  `force` and `minDocs` abstract the module constants; the
inserted-count and event trace are returned. -/
def uploadEntity (force : Bool) (minDocs existingCount : Nat)
    (res : Nat → Nat → WriteResult) (jitter : Nat → Nat → ℚ)
    (single : Nat → Nat → Bool) (data : List α) : Nat × List UploadEvent :=
  if force = true ∨ existingCount < minDocs then
    let cleared :=
      if 0 < existingCount ∧ force = true then
        (clear_collection_safely existingCount).2
      else []
    let r := insert_in_batches res jitter single data
      insert_in_batches_default_batch_size
    (r.1, cleared ++ r.2)
  else (0, [])

/-! ### Dashboard query layer (`dashboard_retail.py`, lines 48-192)

Every loader / aggregation function wraps its body in
`try: ... except Exception as e: st.error(...); return pd.DataFrame()`.
The body can observe three situations: `init_connection()` returned
`None` (connection failure already reported there), the query succeeded
with some list of documents, or something in the body raised.  This is
injected as `Except String (Option (List α))`; a `DataFrame` is modelled
as the list of its rows, the empty `DataFrame` as `[]`.  Returned pairs
are (inline error message displayed via `st.error`, resulting frame);
all functions are total, i.e. no exception escapes to the caller. -/

/-- Outcome of the `try` body: `.error e` = an exception was raised,
`.ok none` = `init_connection()` returned `None`, `.ok (some rows)` =
the query returned `rows`. -/
abbrev QueryOutcome (α : Type) := Except String (Option (List α))

def load_products : QueryOutcome Product → Option String × List Product
  | .error e => (some ("Error loading products: " ++ e), [])
  | .ok none => (none, [])
  | .ok (some rows) => (none, rows)

def load_customers : QueryOutcome Customer → Option String × List Customer
  | .error e => (some ("Error loading customers: " ++ e), [])
  | .ok none => (none, [])
  | .ok (some rows) => (none, rows)

def load_orders : QueryOutcome Order → Option String × List Order
  | .error e => (some ("Error loading orders: " ++ e), [])
  | .ok none => (none, [])
  | .ok (some rows) => (none, rows)

def load_reviews : QueryOutcome Review → Option String × List Review
  | .error e => (some ("Error loading reviews: " ++ e), [])
  | .ok none => (none, [])
  | .ok (some rows) => (none, rows)

/-- Result rows of the category-statistics `$group` stage. -/
structure CategoryStat where
  category : String
  total_products : Nat
  avg_price : ℚ
  avg_rating : ℚ
  total_stock : Nat
deriving Inhabited, DecidableEq

/-- Server-side pipeline of `get_category_stats`: group products by
`category` (`$sum: 1`, `$avg` of price and rating, `$sum` of stock) and
sort by `total_products` descending. -/
def category_pipeline (products : List Product) : List CategoryStat :=
  let keys := (products.map (·.category)).dedup
  let groups := keys.map fun c =>
    let g := products.filter fun p => p.category == c
    { category := c
      total_products := g.length
      avg_price := (g.map (·.price)).sum / g.length
      avg_rating := (g.map (·.rating)).sum / g.length
      total_stock := (g.map (·.stock_quantity)).sum : CategoryStat }
  groups.mergeSort fun a b => Nat.ble b.total_products a.total_products

def get_category_stats :
    QueryOutcome Product → Option String × List CategoryStat
  | .error e => (some ("Error loading category stats: " ++ e), [])
  | .ok none => (none, [])
  | .ok (some products) =>
    let data := category_pipeline products
    if data.isEmpty then (none, []) else (none, data)

/-- Result rows of the sales-by-state `$group` stage. -/
structure StateSales where
  state : String
  total_orders : Nat
  total_revenue : ℚ
  avg_order_value : ℚ
deriving Inhabited, DecidableEq

/-- Server-side pipeline of `get_sales_by_state`: group orders by
`customer_state` and sort by `total_revenue` descending. -/
def sales_by_state_pipeline (orders : List Order) : List StateSales :=
  let keys := (orders.map (·.customer_state)).dedup
  let groups := keys.map fun s =>
    let g := orders.filter fun o => o.customer_state == s
    { state := s
      total_orders := g.length
      total_revenue := (g.map (·.total_amount)).sum
      avg_order_value := (g.map (·.total_amount)).sum / g.length : StateSales }
  groups.mergeSort fun a b => decide (b.total_revenue ≤ a.total_revenue)

def get_sales_by_state :
    QueryOutcome Order → Option String × List StateSales
  | .error e => (some ("Error loading sales by state: " ++ e), [])
  | .ok none => (none, [])
  | .ok (some orders) =>
    let data := sales_by_state_pipeline orders
    if data.isEmpty then (none, []) else (none, data)

/-- Result rows of the top-products `$group` stage. -/
structure TopProduct where
  product_id : String
  product_name : String
  avg_rating : ℚ
  review_count : Nat
deriving Inhabited, DecidableEq

/-- Server-side pipeline of `get_top_products`: group reviews by
`product_id` (`$first` product name, `$avg` rating, `$sum: 1`), keep
groups with at least 2 reviews, sort by rating then count descending,
limit to 15. -/
def top_products_pipeline (reviews : List Review) : List TopProduct :=
  let keys := (reviews.map (·.product_id)).dedup
  let groups := keys.map fun pid =>
    let g := reviews.filter fun rv => rv.product_id == pid
    { product_id := pid
      product_name := (g.head?.map (·.product_name)).getD ""
      avg_rating := ((g.map fun rv => (rv.rating : ℚ)).sum) / g.length
      review_count := g.length : TopProduct }
  let matched := groups.filter fun t => 2 ≤ t.review_count
  (matched.mergeSort fun a b =>
    decide (b.avg_rating < a.avg_rating ∨
      (b.avg_rating = a.avg_rating ∧ b.review_count ≤ a.review_count))).take 15

def get_top_products :
    QueryOutcome Review → Option String × List TopProduct
  | .error e => (some ("Error loading top products: " ++ e), [])
  | .ok none => (none, [])
  | .ok (some reviews) =>
    let data := top_products_pipeline reviews
    if data.isEmpty then (none, []) else (none, data)

/-! ## Lemmas about rounding -/

theorem roundHalfEven_intCast (k : ℤ) : roundHalfEven (k : ℚ) = k := by
  simp [roundHalfEven]

theorem roundHalfEven_eq_floor_or (x : ℚ) :
    roundHalfEven x = ⌊x⌋ ∨ roundHalfEven x = ⌊x⌋ + 1 := by
  unfold roundHalfEven
  split_ifs <;> simp

theorem abs_roundHalfEven_sub (x : ℚ) :
    |(roundHalfEven x : ℚ) - x| ≤ 1 / 2 := by
  have hf : (⌊x⌋ : ℚ) ≤ x := Int.floor_le x
  have hf' : x < ⌊x⌋ + 1 := Int.lt_floor_add_one x
  unfold roundHalfEven
  split_ifs with h1 h2 h3
  · rw [abs_sub_comm, abs_of_nonneg (by linarith)]
    linarith
  · rw [abs_of_nonneg (by push_cast; linarith)]
    push_cast
    linarith
  · push_neg at h1 h2
    have hx : x - (⌊x⌋ : ℚ) = 1 / 2 := le_antisymm h2 h1
    rw [abs_sub_comm, abs_of_nonneg (by linarith)]
    linarith
  · push_neg at h1 h2
    have hx : x - (⌊x⌋ : ℚ) = 1 / 2 := le_antisymm h2 h1
    rw [abs_of_nonneg (by push_cast; linarith)]
    push_cast
    linarith

theorem abs_round2_sub (x : ℚ) : |round2 x - x| ≤ 1 / 200 := by
  have h := abs_roundHalfEven_sub (x * 100)
  unfold round2
  have : (roundHalfEven (x * 100) : ℚ) / 100 - x =
      ((roundHalfEven (x * 100) : ℚ) - x * 100) / 100 := by ring
  rw [this, abs_div, abs_of_pos (by norm_num : (0:ℚ) < 100)]
  linarith [abs_nonneg ((roundHalfEven (x * 100) : ℚ) - x * 100)]

/-- `x` has at most two decimal places. -/
def TwoDp (x : ℚ) : Prop := ∃ k : ℤ, x = (k : ℚ) / 100

theorem twoDp_round2 (x : ℚ) : TwoDp (round2 x) :=
  ⟨roundHalfEven (x * 100), rfl⟩

theorem round2_eq_self {x : ℚ} (h : TwoDp x) : round2 x = x := by
  obtain ⟨k, rfl⟩ := h
  unfold round2
  rw [div_mul_cancel₀ (k : ℚ) (by norm_num : (100:ℚ) ≠ 0), roundHalfEven_intCast]

theorem TwoDp.zero : TwoDp 0 := ⟨0, by norm_num⟩

theorem TwoDp.add {x y : ℚ} (hx : TwoDp x) (hy : TwoDp y) : TwoDp (x + y) := by
  obtain ⟨a, rfl⟩ := hx
  obtain ⟨b, rfl⟩ := hy
  exact ⟨a + b, by push_cast; ring⟩

theorem TwoDp.mul_natCast {x : ℚ} (hx : TwoDp x) (n : ℕ) :
    TwoDp (x * (n : ℚ)) := by
  obtain ⟨a, rfl⟩ := hx
  exact ⟨a * n, by push_cast; ring⟩

theorem twoDp_sum {l : List ℚ} (h : ∀ x ∈ l, TwoDp x) : TwoDp l.sum := by
  induction l with
  | nil => exact TwoDp.zero
  | cons x xs ih =>
    rw [List.sum_cons]
    exact (h x (List.mem_cons_self x xs)).add
      (ih fun y hy => h y (List.mem_cons_of_mem x hy))

/-- Lower bound through `round2`, for a two-decimal lower bound. -/
theorem le_round2 {a x : ℚ} (ha : TwoDp a) (h : a ≤ x) : a ≤ round2 x := by
  obtain ⟨k, rfl⟩ := ha
  have hk : (k : ℚ) ≤ x * 100 := by
    rw [div_le_iff₀ (by norm_num : (0:ℚ) < 100)] at h
    linarith
  have hfloor : k ≤ ⌊x * 100⌋ := Int.le_floor.mpr hk
  have hcast : (k : ℚ) ≤ (⌊x * 100⌋ : ℚ) := by exact_mod_cast hfloor
  have hge : (k : ℚ) ≤ (roundHalfEven (x * 100) : ℚ) := by
    rcases roundHalfEven_eq_floor_or (x * 100) with h1 | h1 <;> rw [h1] <;>
      push_cast <;> linarith
  unfold round2
  linarith

/-- Upper bound through `round2`, for a two-decimal upper bound. -/
theorem round2_le {b x : ℚ} (hb : TwoDp b) (h : x ≤ b) : round2 x ≤ b := by
  obtain ⟨k, rfl⟩ := hb
  have hk : x * 100 ≤ (k : ℚ) := by
    rw [le_div_iff₀ (by norm_num : (0:ℚ) < 100)] at h
    linarith
  have hfk : ⌊x * 100⌋ ≤ k := by
    have := Int.floor_mono hk
    simpa using this
  have hle : (roundHalfEven (x * 100) : ℚ) ≤ (k : ℚ) := by
    rcases roundHalfEven_eq_floor_or (x * 100) with h1 | h1
    · rw [h1]
      exact_mod_cast hfk
    · by_cases hq : ⌊x * 100⌋ = k
      · -- then `x * 100 = k` exactly, so rounding cannot go up
        have hxk : x * 100 = (k : ℚ) :=
          le_antisymm hk (by rw [← hq]; exact Int.floor_le _)
        rw [hxk, roundHalfEven_intCast, Int.floor_intCast] at h1
        omega
      · have hlt : ⌊x * 100⌋ < k := lt_of_le_of_ne hfk hq
        rw [h1]
        exact_mod_cast hlt
  unfold round2
  linarith

/-! ## Lemmas about the generators -/

theorem pyChoice_mem [Inhabited α] {xs : List α} (h : xs ≠ []) (k : Nat) :
    pyChoice xs k ∈ xs := by
  unfold pyChoice
  have hl : 0 < xs.length := List.length_pos.mpr h
  have hm : k % xs.length < xs.length := Nat.mod_lt _ hl
  rw [List.getD_eq_getElem _ _ hm]
  exact List.getElem_mem hm

theorem mem_generate_products {r : ProductRand} {n : Nat} {p : Product} :
    p ∈ generate_products r n ↔ ∃ k < n, p = mkProduct r (k + 1) := by
  simp only [generate_products, List.mem_map, List.mem_range]
  constructor
  · rintro ⟨k, hk, rfl⟩
    exact ⟨k, hk, rfl⟩
  · rintro ⟨k, hk, rfl⟩
    exact ⟨k, hk, rfl⟩

theorem mem_generate_orders {r : OrderRand} {customers : List Customer}
    {products : List Product} {n : Nat} {o : Order} :
    o ∈ generate_orders r customers products n ↔
      ∃ k < n, o = mkOrder r customers products (k + 1) := by
  simp only [generate_orders, List.mem_map, List.mem_range]
  constructor
  · rintro ⟨k, hk, rfl⟩
    exact ⟨k, hk, rfl⟩
  · rintro ⟨k, hk, rfl⟩
    exact ⟨k, hk, rfl⟩

theorem generate_products_price_twoDp {r : ProductRand} {n : Nat} :
    ∀ p ∈ generate_products r n, TwoDp p.price := by
  intro p hp
  obtain ⟨k, _, rfl⟩ := mem_generate_products.mp hp
  exact twoDp_round2 _

theorem default_product_price : (default : Product).price = 0 := rfl

/-- Every product drawn by the item loop has a two-decimal price, given
that all supplied products do (the `default` fallback of an empty product
list has price `0`). -/
theorem orderPicks_price_twoDp {r : OrderRand} {products : List Product}
    {i : Nat} (hP : ∀ p ∈ products, TwoDp p.price) :
    ∀ pq ∈ orderPicks r products i, TwoDp pq.1.price := by
  intro pq hpq
  simp only [orderPicks, List.mem_map, List.mem_range] at hpq
  obtain ⟨j, _, rfl⟩ := hpq
  by_cases hps : products = []
  · subst hps
    simpa [pyChoice, default_product_price] using TwoDp.zero
  · exact hP _ (pyChoice_mem hps _)

/-- The raw line totals summed by the loop accumulator. -/
def rawTotal (r : OrderRand) (products : List Product) (i : Nat) : ℚ :=
  ((orderPicks r products i).map fun pq => pq.1.price * (pq.2 : ℚ)).sum

theorem mkOrder_items (r : OrderRand) (customers : List Customer)
    (products : List Product) (i : Nat) :
    (mkOrder r customers products i).items =
      (orderPicks r products i).map mkItem := rfl

theorem mkOrder_total_amount (r : OrderRand) (customers : List Customer)
    (products : List Product) (i : Nat) :
    (mkOrder r customers products i).total_amount =
      round2 (rawTotal r products i) := rfl

theorem mkOrder_tax (r : OrderRand) (customers : List Customer)
    (products : List Product) (i : Nat) :
    (mkOrder r customers products i).tax =
      round2 (rawTotal r products i * (8 / 100)) := rfl

theorem mkOrder_shipping_cost (r : OrderRand) (customers : List Customer)
    (products : List Product) (i : Nat) :
    (mkOrder r customers products i).shipping_cost =
      round2 (pyUniform 5 15 (r.shipU i)) := rfl

theorem rawTotal_twoDp {r : OrderRand} {products : List Product} {i : Nat}
    (hP : ∀ p ∈ products, TwoDp p.price) :
    TwoDp (rawTotal r products i) := by
  refine twoDp_sum ?_
  intro x hx
  simp only [List.mem_map] at hx
  obtain ⟨pq, hpq, rfl⟩ := hx
  exact (orderPicks_price_twoDp hP pq hpq).mul_natCast _

/-- The stored item totals sum exactly to the raw accumulator: each
`item_total = round(price * qty, 2)` is already a two-decimal value. -/
theorem sum_item_totals {r : OrderRand} {customers : List Customer}
    {products : List Product} {i : Nat}
    (hP : ∀ p ∈ products, TwoDp p.price) :
    (((mkOrder r customers products i).items).map (·.item_total)).sum =
      rawTotal r products i := by
  rw [mkOrder_items]
  unfold rawTotal
  rw [List.map_map]
  congr 1
  refine List.map_congr_left ?_
  intro pq hpq
  show round2 (pq.1.price * (pq.2 : ℚ)) = pq.1.price * (pq.2 : ℚ)
  exact round2_eq_self ((orderPicks_price_twoDp hP pq hpq).mul_natCast _)

theorem orderPicks_price_nonneg {r : OrderRand} {products : List Product}
    {i : Nat} (hP0 : ∀ p ∈ products, 0 ≤ p.price) :
    ∀ pq ∈ orderPicks r products i, 0 ≤ pq.1.price := by
  intro pq hpq
  simp only [orderPicks, List.mem_map, List.mem_range] at hpq
  obtain ⟨j, _, rfl⟩ := hpq
  by_cases hps : products = []
  · subst hps
    simp [pyChoice, default_product_price]
  · exact hP0 _ (pyChoice_mem hps _)

theorem rawTotal_nonneg {r : OrderRand} {products : List Product} {i : Nat}
    (hP0 : ∀ p ∈ products, 0 ≤ p.price) :
    0 ≤ rawTotal r products i := by
  refine List.sum_nonneg ?_
  intro x hx
  simp only [List.mem_map] at hx
  obtain ⟨pq, hpq, rfl⟩ := hx
  exact mul_nonneg (orderPicks_price_nonneg hP0 pq hpq) (Nat.cast_nonneg _)

theorem generate_products_price_nonneg {r : ProductRand} {n : Nat}
    (hr : r.Valid) : ∀ p ∈ generate_products r n, 0 ≤ p.price := by
  intro p hp
  obtain ⟨k, _, rfl⟩ := mem_generate_products.mp hp
  have h := hr (k + 1)
  refine le_round2 TwoDp.zero ?_
  unfold pyUniform
  nlinarith [h.1]

/-! ## Zero-draw random streams, used to instantiate the theorems on
concrete runs -/

def zeroProductRand : ProductRand where
  catR := fun _ => 0
  brandR := fun _ => 0
  priceU := fun _ => 0
  costU := fun _ => 0
  stockR := fun _ => 0
  ratingU := fun _ => 0
  nrevR := fun _ => 0
  cdateR := fun _ => 0

def zeroCustomerRand : CustomerRand where
  cityR := fun _ => 0
  joinR := fun _ => 0
  tierR := fun _ => 0

def zeroOrderRand : OrderRand where
  custR := fun _ => 0
  dateR := fun _ => 0
  nItemsR := fun _ => 0
  prodR := fun _ _ => 0
  qtyR := fun _ _ => 0
  shipU := fun _ => 0
  statusR := fun _ => 0
  payR := fun _ => 0

def zeroReviewRand : ReviewRand where
  orderR := fun _ => 0
  itemR := fun _ => 0
  ratingR := fun _ => 0
  dateR := fun _ => 0
  votesR := fun _ => 0

theorem zeroProductRand_valid : zeroProductRand.Valid := by
  intro i
  norm_num [zeroProductRand]

theorem zeroOrderRand_valid : zeroOrderRand.Valid := by
  intro i
  norm_num [zeroOrderRand]

/-! ## C1 -/

/-- C1: for every order produced by `generate_orders` (over products whose
prices carry at most two decimals, as all generated products do), the
`total_amount` field equals the sum of the items' `item_total` fields
(here even exactly, which is within any rounding tolerance), and the `tax`
field equals 8% of `total_amount` up to the two-decimal rounding tolerance
of `1/200`. -/
theorem generated_order_totals (r : OrderRand) (customers : List Customer)
    (products : List Product) (n : Nat)
    (hP : ∀ p ∈ products, TwoDp p.price)
    (o : Order) (ho : o ∈ generate_orders r customers products n) :
    o.total_amount = (o.items.map (·.item_total)).sum ∧
    |o.tax - (8 / 100) * o.total_amount| ≤ 1 / 200 := by
  obtain ⟨k, _, rfl⟩ := mem_generate_orders.mp ho
  have hraw := rawTotal_twoDp (r := r) (i := k + 1) hP
  constructor
  · rw [mkOrder_total_amount, sum_item_totals hP, round2_eq_self hraw]
  · rw [mkOrder_tax, mkOrder_total_amount, round2_eq_self hraw]
    have h := abs_round2_sub (rawTotal r products (k + 1) * (8 / 100))
    rw [mul_comm ((8 : ℚ) / 100)]
    exact h

theorem generated_order_totals_witness :
    (mkOrder zeroOrderRand (generate_customers zeroCustomerRand 1)
        (generate_products zeroProductRand 1) 1).total_amount =
      (((mkOrder zeroOrderRand (generate_customers zeroCustomerRand 1)
        (generate_products zeroProductRand 1) 1).items).map
          (·.item_total)).sum ∧
    |(mkOrder zeroOrderRand (generate_customers zeroCustomerRand 1)
        (generate_products zeroProductRand 1) 1).tax -
      (8 / 100) * (mkOrder zeroOrderRand (generate_customers zeroCustomerRand 1)
        (generate_products zeroProductRand 1) 1).total_amount| ≤ 1 / 200 :=
  generated_order_totals zeroOrderRand _ _ 1 generate_products_price_twoDp _
    (mem_generate_orders.mpr ⟨0, Nat.zero_lt_one, rfl⟩)

/-! ## C2 -/

/-- C2 counterexample: `total_amount` does NOT include tax and shipping.
On the all-zero random run over one generated customer and product, the
order has `total_amount = 10` (one unit of the price-10 product), but
`tax = 0.8` and `shipping_cost = 5`, so the sum of line totals plus tax
plus shipping is `15.8 ≠ 10`. -/
theorem order_total_includes_tax_shipping_cex :
    ∃ o ∈ generate_orders zeroOrderRand (generate_customers zeroCustomerRand 1)
        (generate_products zeroProductRand 1) 1,
      o.total_amount ≠
        (o.items.map (·.item_total)).sum + o.tax + o.shipping_cost := by
  refine ⟨mkOrder zeroOrderRand (generate_customers zeroCustomerRand 1)
    (generate_products zeroProductRand 1) 1,
    mem_generate_orders.mpr ⟨0, Nat.zero_lt_one, rfl⟩, ?_⟩
  rw [mkOrder_total_amount, mkOrder_tax, mkOrder_shipping_cost, mkOrder_items]
  norm_num [rawTotal, orderPicks, mkItem, pyChoice, pyRandint, pyUniform,
    generate_products, mkProduct, zeroOrderRand, zeroProductRand, round2,
    roundHalfEven]

/-- C2, amended: an order's `total_amount` equals the sum of its line-item
totals alone, fixed at creation; `tax` and `shipping_cost` are stored as
separate fields and are not part of `total_amount` (in particular the
total is strictly less than line totals plus tax plus shipping, shipping
being at least 5). -/
theorem order_total_amount_spec (r : OrderRand) (customers : List Customer)
    (products : List Product) (n : Nat) (hr : r.Valid)
    (hP : ∀ p ∈ products, TwoDp p.price)
    (hP0 : ∀ p ∈ products, 0 ≤ p.price)
    (o : Order) (ho : o ∈ generate_orders r customers products n) :
    o.total_amount = (o.items.map (·.item_total)).sum ∧
    o.total_amount <
      (o.items.map (·.item_total)).sum + o.tax + o.shipping_cost := by
  obtain ⟨k, _, rfl⟩ := mem_generate_orders.mp ho
  have hraw := rawTotal_twoDp (r := r) (i := k + 1) hP
  have heq : (mkOrder r customers products (k + 1)).total_amount =
      (((mkOrder r customers products (k + 1)).items).map
        (·.item_total)).sum := by
    rw [mkOrder_total_amount, sum_item_totals hP, round2_eq_self hraw]
  refine ⟨heq, ?_⟩
  have htax : 0 ≤ (mkOrder r customers products (k + 1)).tax := by
    rw [mkOrder_tax]
    refine le_round2 TwoDp.zero ?_
    have := rawTotal_nonneg (r := r) (i := k + 1) hP0
    positivity
  have hship : (5 : ℚ) ≤ (mkOrder r customers products (k + 1)).shipping_cost := by
    rw [mkOrder_shipping_cost]
    refine le_round2 ⟨500, by norm_num⟩ ?_
    have h := hr (k + 1)
    unfold pyUniform
    nlinarith [h.1]
  linarith

theorem order_total_amount_spec_witness :
    (mkOrder zeroOrderRand (generate_customers zeroCustomerRand 1)
        (generate_products zeroProductRand 1) 1).total_amount =
      (((mkOrder zeroOrderRand (generate_customers zeroCustomerRand 1)
        (generate_products zeroProductRand 1) 1).items).map
          (·.item_total)).sum ∧
    (mkOrder zeroOrderRand (generate_customers zeroCustomerRand 1)
        (generate_products zeroProductRand 1) 1).total_amount <
      (((mkOrder zeroOrderRand (generate_customers zeroCustomerRand 1)
        (generate_products zeroProductRand 1) 1).items).map
          (·.item_total)).sum +
      (mkOrder zeroOrderRand (generate_customers zeroCustomerRand 1)
        (generate_products zeroProductRand 1) 1).tax +
      (mkOrder zeroOrderRand (generate_customers zeroCustomerRand 1)
        (generate_products zeroProductRand 1) 1).shipping_cost :=
  order_total_amount_spec zeroOrderRand _ _ 1 zeroOrderRand_valid
    generate_products_price_twoDp
    (generate_products_price_nonneg zeroProductRand_valid) _
    (mem_generate_orders.mpr ⟨0, Nat.zero_lt_one, rfl⟩)

/-! ## C10 -/

theorem mem_generate_customers {r : CustomerRand} {n : Nat} {c : Customer} :
    c ∈ generate_customers r n ↔ ∃ k < n, c = mkCustomer r (k + 1) := by
  simp only [generate_customers, List.mem_map, List.mem_range]
  constructor
  · rintro ⟨k, hk, rfl⟩
    exact ⟨k, hk, rfl⟩
  · rintro ⟨k, hk, rfl⟩
    exact ⟨k, hk, rfl⟩

theorem mkCustomer_city (r : CustomerRand) (i : Nat) :
    (mkCustomer r i).city =
      cities.getD (pyRandint 0 (cities.length - 1) (r.cityR i)) "" := rfl

theorem mkCustomer_state (r : CustomerRand) (i : Nat) :
    (mkCustomer r i).state =
      states.getD (pyRandint 0 (cities.length - 1) (r.cityR i)) "" := rfl

/-- C10: every generated customer's `(city, state)` is one of the ten
matched pairs obtained by indexing the `cities` and `states` tables with
the same drawn index. -/
theorem customer_city_state_pair (r : CustomerRand) (n : Nat)
    (c : Customer) (hc : c ∈ generate_customers r n) :
    (c.city, c.state) ∈
      [("New York", "NY"), ("Los Angeles", "CA"), ("Chicago", "IL"),
       ("Houston", "TX"), ("Phoenix", "AZ"), ("Philadelphia", "PA"),
       ("San Antonio", "TX"), ("San Diego", "CA"), ("Dallas", "TX"),
       ("San Jose", "CA")] := by
  obtain ⟨k, _, rfl⟩ := mem_generate_customers.mp hc
  rw [mkCustomer_city, mkCustomer_state]
  have hlt : pyRandint 0 (cities.length - 1) (r.cityR (k + 1)) < 10 := by
    show 0 + r.cityR (k + 1) % (10 - 1 - 0 + 1) < 10
    simpa using Nat.mod_lt _ (by norm_num)
  set m := pyRandint 0 (cities.length - 1) (r.cityR (k + 1)) with hm
  clear_value m
  interval_cases m <;> decide

theorem customer_city_state_pair_witness :
    (mkCustomer zeroCustomerRand 1).city = "New York" ∧
    (mkCustomer zeroCustomerRand 1).state = "NY" ∧
    ((mkCustomer zeroCustomerRand 1).city,
      (mkCustomer zeroCustomerRand 1).state) ∈
      [("New York", "NY"), ("Los Angeles", "CA"), ("Chicago", "IL"),
       ("Houston", "TX"), ("Phoenix", "AZ"), ("Philadelphia", "PA"),
       ("San Antonio", "TX"), ("San Diego", "CA"), ("Dallas", "TX"),
       ("San Jose", "CA")] :=
  ⟨by decide, by decide,
    customer_city_state_pair zeroCustomerRand 1 _
      (mem_generate_customers.mpr ⟨0, Nat.zero_lt_one, rfl⟩)⟩

/-! ## C5 -/

theorem mkReview_eq_some {r : ReviewRand} {orders : List Order} {i : Nat}
    {rv : Review} (h : mkReview r orders i = some rv) :
    rv.order_id = (pyChoice orders (r.orderR i)).order_id ∧
    rv.product_id ∈
      ((pyChoice orders (r.orderR i)).items).map (·.product_id) := by
  unfold mkReview at h
  by_cases hempty : ((pyChoice orders (r.orderR i)).items).isEmpty
  · rw [if_pos hempty] at h
    cases h
  · rw [if_neg hempty] at h
    have hne : (pyChoice orders (r.orderR i)).items ≠ [] := by
      intro hc
      exact hempty (by simp [hc])
    have heq := Option.some.inj h
    constructor
    · rw [← heq]
    · rw [← heq]
      exact List.mem_map_of_mem _ (pyChoice_mem hne _)

/-- C5: every generated review references one of the supplied orders (its
`order_id` is that order's), and its `product_id` is the product id of one
of that same order's line items. -/
theorem generated_review_references (r : ReviewRand) (orders : List Order)
    (n : Nat) (ho : orders ≠ []) (rv : Review)
    (hrv : rv ∈ generate_reviews r orders n) :
    ∃ o ∈ orders, rv.order_id = o.order_id ∧
      rv.product_id ∈ o.items.map (·.product_id) := by
  simp only [generate_reviews, List.mem_filterMap, List.mem_range] at hrv
  obtain ⟨k, _, hmk⟩ := hrv
  obtain ⟨h1, h2⟩ := mkReview_eq_some hmk
  exact ⟨_, pyChoice_mem ho _, h1, h2⟩

theorem generated_review_references_witness :
    (generate_orders zeroOrderRand (generate_customers zeroCustomerRand 1)
        (generate_products zeroProductRand 1) 1 ≠ []) ∧
    ∃ o ∈ generate_orders zeroOrderRand (generate_customers zeroCustomerRand 1)
        (generate_products zeroProductRand 1) 1,
      ((generate_reviews zeroReviewRand
          (generate_orders zeroOrderRand (generate_customers zeroCustomerRand 1)
            (generate_products zeroProductRand 1) 1) 1).headD
        default).order_id = o.order_id ∧
      ((generate_reviews zeroReviewRand
          (generate_orders zeroOrderRand (generate_customers zeroCustomerRand 1)
            (generate_products zeroProductRand 1) 1) 1).headD
        default).product_id ∈ o.items.map (·.product_id) :=
  ⟨by decide,
    generated_review_references zeroReviewRand _ 1 (by decide) _ (by decide)⟩

/-! ## C8 -/

/-- Lower bound through `round1`, for a one-decimal lower bound. -/
theorem le_round1 {a x : ℚ} (ha : ∃ k : ℤ, a = (k : ℚ) / 10) (h : a ≤ x) :
    a ≤ round1 x := by
  obtain ⟨k, rfl⟩ := ha
  have hk : (k : ℚ) ≤ x * 10 := by
    rw [div_le_iff₀ (by norm_num : (0:ℚ) < 10)] at h
    linarith
  have hfloor : k ≤ ⌊x * 10⌋ := Int.le_floor.mpr hk
  have hcast : (k : ℚ) ≤ (⌊x * 10⌋ : ℚ) := by exact_mod_cast hfloor
  have hge : (k : ℚ) ≤ (roundHalfEven (x * 10) : ℚ) := by
    rcases roundHalfEven_eq_floor_or (x * 10) with h1 | h1 <;> rw [h1] <;>
      push_cast <;> linarith
  unfold round1
  linarith

/-- Upper bound through `round1`, for a one-decimal upper bound. -/
theorem round1_le {b x : ℚ} (hb : ∃ k : ℤ, b = (k : ℚ) / 10) (h : x ≤ b) :
    round1 x ≤ b := by
  obtain ⟨k, rfl⟩ := hb
  have hk : x * 10 ≤ (k : ℚ) := by
    rw [le_div_iff₀ (by norm_num : (0:ℚ) < 10)] at h
    linarith
  have hfk : ⌊x * 10⌋ ≤ k := by
    have := Int.floor_mono hk
    simpa using this
  have hle : (roundHalfEven (x * 10) : ℚ) ≤ (k : ℚ) := by
    rcases roundHalfEven_eq_floor_or (x * 10) with h1 | h1
    · rw [h1]
      exact_mod_cast hfk
    · by_cases hq : ⌊x * 10⌋ = k
      · have hxk : x * 10 = (k : ℚ) :=
          le_antisymm hk (by rw [← hq]; exact Int.floor_le _)
        rw [hxk, roundHalfEven_intCast, Int.floor_intCast] at h1
        omega
      · have hlt : ⌊x * 10⌋ < k := lt_of_le_of_ne hfk hq
        rw [h1]
        exact_mod_cast hlt
  unfold round1
  linarith

theorem mkProduct_price (r : ProductRand) (i : Nat) :
    (mkProduct r i).price = round2 (pyUniform 10 500 (r.priceU i)) := rfl

theorem mkProduct_cost (r : ProductRand) (i : Nat) :
    (mkProduct r i).cost = round2 (pyUniform 5 250 (r.costU i)) := rfl

theorem mkProduct_rating (r : ProductRand) (i : Nat) :
    (mkProduct r i).rating = round1 (pyUniform 3 5 (r.ratingU i)) := rfl

/-- Product-generator random pack whose rating sample hits `3.456`,
exhibiting the one- versus two-decimal difference. -/
def cexProductRand : ProductRand where
  catR := fun _ => 0
  brandR := fun _ => 0
  priceU := fun _ => 0
  costU := fun _ => 0
  stockR := fun _ => 0
  ratingU := fun _ => 228 / 1000
  nrevR := fun _ => 0
  cdateR := fun _ => 0

/-- C8 counterexample: `rating` is rounded to ONE decimal place, not two.
With unit sample `0.228` the uniform draw is `3.456`; the generator stores
`round(3.456, 1) = 3.5`, whereas rounding to two decimals would give
`3.46`.  The random pack is valid (all unit samples lie in `[0, 1]`). -/
theorem product_rating_two_decimals_cex :
    cexProductRand.Valid ∧
    ∃ p ∈ generate_products cexProductRand 1,
      p.rating ≠ round2 (pyUniform 3 5 (cexProductRand.ratingU 1)) := by
  refine ⟨fun i => by norm_num [cexProductRand], ?_⟩
  refine ⟨mkProduct cexProductRand 1,
    mem_generate_products.mpr ⟨0, Nat.zero_lt_one, rfl⟩, ?_⟩
  rw [mkProduct_rating]
  show round1 (pyUniform 3 5 (228 / 1000)) ≠ round2 (pyUniform 3 5 (228 / 1000))
  norm_num [pyUniform, round1, round2, roundHalfEven]

/-- C8, amended: `price` and `cost` are independent two-decimal roundings
of uniform samples on `[10, 500]` and `[5, 250]`, each staying inside its
range, while `rating` is rounded to ONE decimal place on `[3, 5]` (the
claim's "two decimals" fails for `rating`); each field depends only on its
own stream of draws, so no relation between price and cost is enforced. -/
theorem product_field_sampling (r : ProductRand) (n : Nat) (hr : r.Valid)
    (p : Product) (hp : p ∈ generate_products r n) :
    (∃ k < n,
      p.price = round2 (pyUniform 10 500 (r.priceU (k + 1))) ∧
      p.cost = round2 (pyUniform 5 250 (r.costU (k + 1))) ∧
      p.rating = round1 (pyUniform 3 5 (r.ratingU (k + 1)))) ∧
    10 ≤ p.price ∧ p.price ≤ 500 ∧ 5 ≤ p.cost ∧ p.cost ≤ 250 ∧
    3 ≤ p.rating ∧ p.rating ≤ 5 := by
  obtain ⟨k, hk, rfl⟩ := mem_generate_products.mp hp
  obtain ⟨hp0, hp1, hc0, hc1, hr0, hr1⟩ := hr (k + 1)
  rw [mkProduct_price, mkProduct_cost, mkProduct_rating]
  refine ⟨⟨k, hk, rfl, rfl, rfl⟩, ?_, ?_, ?_, ?_, ?_, ?_⟩
  · exact le_round2 ⟨1000, by norm_num⟩ (by unfold pyUniform; nlinarith)
  · exact round2_le ⟨50000, by norm_num⟩ (by unfold pyUniform; nlinarith)
  · exact le_round2 ⟨500, by norm_num⟩ (by unfold pyUniform; nlinarith)
  · exact round2_le ⟨25000, by norm_num⟩ (by unfold pyUniform; nlinarith)
  · exact le_round1 ⟨30, by norm_num⟩ (by unfold pyUniform; nlinarith)
  · exact round1_le ⟨50, by norm_num⟩ (by unfold pyUniform; nlinarith)

theorem product_field_sampling_witness :
    (∃ k < 1,
      (mkProduct zeroProductRand 1).price =
        round2 (pyUniform 10 500 (zeroProductRand.priceU (k + 1))) ∧
      (mkProduct zeroProductRand 1).cost =
        round2 (pyUniform 5 250 (zeroProductRand.costU (k + 1))) ∧
      (mkProduct zeroProductRand 1).rating =
        round1 (pyUniform 3 5 (zeroProductRand.ratingU (k + 1)))) ∧
    10 ≤ (mkProduct zeroProductRand 1).price ∧
    (mkProduct zeroProductRand 1).price ≤ 500 ∧
    5 ≤ (mkProduct zeroProductRand 1).cost ∧
    (mkProduct zeroProductRand 1).cost ≤ 250 ∧
    3 ≤ (mkProduct zeroProductRand 1).rating ∧
    (mkProduct zeroProductRand 1).rating ≤ 5 :=
  product_field_sampling zeroProductRand 1 zeroProductRand_valid _
    (mem_generate_products.mpr ⟨0, Nat.zero_lt_one, rfl⟩)

/-! ## C7 -/

/-- C7: all seven dashboard query functions are total Lean functions (no
exception can propagate), convert a raised exception into an inline error
message plus an empty frame, and return an empty frame on an empty source
collection. -/
theorem dashboard_queries_degrade_gracefully :
    (∀ e, load_products (.error e) =
      (some ("Error loading products: " ++ e), [])) ∧
    load_products (.ok (some [])) = (none, []) ∧
    (∀ e, load_customers (.error e) =
      (some ("Error loading customers: " ++ e), [])) ∧
    load_customers (.ok (some [])) = (none, []) ∧
    (∀ e, load_orders (.error e) =
      (some ("Error loading orders: " ++ e), [])) ∧
    load_orders (.ok (some [])) = (none, []) ∧
    (∀ e, load_reviews (.error e) =
      (some ("Error loading reviews: " ++ e), [])) ∧
    load_reviews (.ok (some [])) = (none, []) ∧
    (∀ e, get_category_stats (.error e) =
      (some ("Error loading category stats: " ++ e), [])) ∧
    get_category_stats (.ok (some [])) = (none, []) ∧
    (∀ e, get_sales_by_state (.error e) =
      (some ("Error loading sales by state: " ++ e), [])) ∧
    get_sales_by_state (.ok (some [])) = (none, []) ∧
    (∀ e, get_top_products (.error e) =
      (some ("Error loading top products: " ++ e), [])) ∧
    get_top_products (.ok (some [])) = (none, []) := by
  refine ⟨fun e => rfl, rfl, fun e => rfl, rfl, fun e => rfl, rfl,
    fun e => rfl, rfl, fun e => rfl, ?_, fun e => rfl, ?_, fun e => rfl, ?_⟩
  · simp [get_category_stats, category_pipeline]
  · simp [get_sales_by_state, sales_by_state_pipeline]
  · simp [get_top_products, top_products_pipeline]

/-! ## C4 -/

/-- C4: when the existing document count is at least
`MIN_DOCS_PER_COLLECTION` and the force flag is off, the per-entity upload
performs no write at all: no bulk write, no fallback insert, no delete,
and zero documents inserted. -/
theorem skip_gate_no_inserts {α : Type} (existingCount : Nat) (force : Bool)
    (res : Nat → Nat → WriteResult) (jitter : Nat → Nat → ℚ)
    (single : Nat → Nat → Bool) (data : List α)
    (h1 : MIN_DOCS_PER_COLLECTION ≤ existingCount) (h2 : force = false) :
    uploadEntity force MIN_DOCS_PER_COLLECTION existingCount res jitter
      single data = (0, []) := by
  subst h2
  unfold uploadEntity
  rw [if_neg]
  intro h
  rcases h with h | h
  · exact Bool.false_ne_true h
  · omega

theorem skip_gate_no_inserts_witness :
    uploadEntity false MIN_DOCS_PER_COLLECTION 50
      (fun _ _ => WriteResult.rateLimited) (fun _ _ => 0)
      (fun _ _ => true) ([0] : List Nat) = (0, []) :=
  skip_gate_no_inserts 50 false _ _ _ _
    (by norm_num [MIN_DOCS_PER_COLLECTION]) rfl

/-! ## Batch-slicing lemmas -/

theorem chunksGo_congr {α : Type} {bs : Nat} (hbs : 0 < bs) :
    ∀ f1 f2 (l : List α), l.length ≤ f1 → l.length ≤ f2 →
      chunksGo bs f1 l = chunksGo bs f2 l := by
  intro f1
  induction f1 with
  | zero =>
    intro f2 l h1 _
    have : l = [] := List.eq_nil_of_length_eq_zero (by omega)
    subst this
    cases f2 <;> rfl
  | succ f ih =>
    intro f2 l h1 h2
    cases l with
    | nil => cases f2 <;> rfl
    | cons x xs =>
      cases f2 with
      | zero => simp at h2
      | succ g =>
        show ((x :: xs).take bs) :: chunksGo bs f ((x :: xs).drop bs) =
          ((x :: xs).take bs) :: chunksGo bs g ((x :: xs).drop bs)
        have hd : ((x :: xs).drop bs).length = (x :: xs).length - bs := by
          simp
        congr 1
        refine ih g _ ?_ ?_ <;> simp at h1 h2 ⊢ <;> omega

theorem chunksOf_nil {α : Type} (bs : Nat) : chunksOf bs ([] : List α) = [] := by
  unfold chunksOf
  split <;> rfl

theorem chunksOf_cons {α : Type} {bs : Nat} (hbs : 0 < bs) (l : List α)
    (hl : l ≠ []) :
    chunksOf bs l = l.take bs :: chunksOf bs (l.drop bs) := by
  unfold chunksOf
  rw [if_neg (by omega), if_neg (by omega)]
  cases l with
  | nil => exact absurd rfl hl
  | cons x xs =>
    show ((x :: xs).take bs) :: chunksGo bs xs.length ((x :: xs).drop bs) = _
    congr 1
    refine chunksGo_congr hbs _ _ _ ?_ ?_ <;> simp <;> omega

/-- Every batch has at most `bs` documents, and every batch other than the
last has exactly `bs`. -/
theorem chunksOf_getD_length {α : Type} {bs : Nat} (hbs : 0 < bs) :
    ∀ N (l : List α), l.length ≤ N → ∀ b, b < (chunksOf bs l).length →
      ((chunksOf bs l).getD b []).length ≤ bs ∧
      (b + 1 < (chunksOf bs l).length →
        ((chunksOf bs l).getD b []).length = bs) := by
  intro N
  induction N with
  | zero =>
    intro l h1 b hb
    have : l = [] := List.eq_nil_of_length_eq_zero (by omega)
    subst this
    rw [chunksOf_nil] at hb
    simp at hb
  | succ N ih =>
    intro l h1 b hb
    by_cases hl : l = []
    · subst hl
      rw [chunksOf_nil] at hb
      simp at hb
    · rw [chunksOf_cons hbs l hl] at hb ⊢
      cases b with
      | zero =>
        simp only [List.getD_cons_zero, List.length_take, List.length_cons]
        constructor
        · omega
        · intro hlen
          -- a later batch exists, so `l` is longer than `bs`
          have hne : chunksOf bs (l.drop bs) ≠ [] := by
            intro hc
            rw [hc] at hlen
            simp at hlen
          have hdne : l.drop bs ≠ [] := by
            intro hc
            rw [hc, chunksOf_nil] at hne
            exact hne rfl
          have : bs < l.length := by
            by_contra hc
            push_neg at hc
            exact hdne (List.drop_eq_nil_of_le hc)
          omega
      | succ b' =>
        simp only [List.getD_cons_succ, List.length_cons] at hb ⊢
        have hdl : (l.drop bs).length ≤ N := by
          have := List.length_pos.mpr hl
          simp
          omega
        have H := ih (l.drop bs) hdl b' (by omega)
        exact ⟨H.1, fun h => H.2 (by omega)⟩

/-! ## The all-rate-limited trace (C3) -/

/-- The event trace of one batch when every attempt is rate limited:
`fuel` write attempts starting at attempt number `a`, each followed by its
backoff sleep. -/
def rlTrace (jitter : Nat → ℚ) (b docs : Nat) : Nat → Nat → List UploadEvent
  | 0, _ => []
  | f + 1, a =>
    UploadEvent.bulkWrite b docs a ::
      UploadEvent.sleep (2 ^ a * BATCH_DELAY + jitter a) ::
        rlTrace jitter b docs f (a + 1)

theorem batchLoop_rateLimited {res : Nat → WriteResult} {jitter : Nat → ℚ}
    {single : Nat → Bool} {b docs : Nat}
    (hRL : ∀ a, res a = WriteResult.rateLimited) :
    ∀ fuel attempt, attempt + fuel = max_retries + 1 →
      batchLoop res jitter single b docs fuel attempt =
        (0, rlTrace jitter b docs fuel attempt) := by
  intro fuel
  induction fuel with
  | zero =>
    intro attempt _
    rfl
  | succ f ih =>
    intro attempt hsum
    show (let ev := UploadEvent.bulkWrite b docs attempt
      match res attempt with
      | .ok n => (n, [ev, .sleep BATCH_DELAY])
      | .bulkErr nIns _ => (nIns, [ev, .sleep (BATCH_DELAY * 2)])
      | .rateLimited =>
        let backoff := 2 ^ attempt * BATCH_DELAY + jitter attempt
        if max_retries < attempt + 1 then (0, [ev, .sleep backoff])
        else
          let rest := batchLoop res jitter single b docs f (attempt + 1)
          (rest.1, ev :: .sleep backoff :: rest.2)
      | .otherErr =>
        let docEvents := (List.range docs).map fun j =>
          if single j then
            [UploadEvent.insertOne b j true, .sleep (1 / 2)]
          else [UploadEvent.insertOne b j false]
        ((List.range docs).countP single, ev :: docEvents.flatten)) = _
    rw [hRL attempt]
    by_cases hlast : f = 0
    · subst hlast
      have ha : attempt = max_retries := by omega
      simp only [if_pos (by omega : max_retries < attempt + 1)]
      rfl
    · simp only [if_neg (by omega : ¬ max_retries < attempt + 1)]
      rw [ih (attempt + 1) (by omega)]
      rfl

/-- Recognises bulk-write events of batch `b`. -/
def isWriteOfBatch (b : Nat) (e : UploadEvent) : Bool :=
  match e with
  | UploadEvent.bulkWrite b' _ _ => b' == b
  | _ => false

theorem rlTrace_countP_self (jitter : Nat → ℚ) (b docs : Nat) :
    ∀ fuel a, (rlTrace jitter b docs fuel a).countP (isWriteOfBatch b) =
      fuel := by
  intro fuel
  induction fuel with
  | zero => intro a; rfl
  | succ f ih =>
    intro a
    show List.countP _ (_ :: _ :: rlTrace jitter b docs f (a + 1)) = f + 1
    rw [List.countP_cons, List.countP_cons, ih (a + 1)]
    simp [isWriteOfBatch]

theorem rlTrace_countP_other (jitter : Nat → ℚ) {b b' : Nat} (docs : Nat)
    (hne : b' ≠ b) :
    ∀ fuel a, (rlTrace jitter b' docs fuel a).countP (isWriteOfBatch b) =
      0 := by
  intro fuel
  induction fuel with
  | zero => intro a; rfl
  | succ f ih =>
    intro a
    show List.countP _ (_ :: _ :: rlTrace jitter b' docs f (a + 1)) = 0
    rw [List.countP_cons, List.countP_cons, ih (a + 1)]
    simp [isWriteOfBatch, hne]

theorem infix_cons_lift {β : Type} {l t : List β} (x : β) (h : l <:+: t) :
    l <:+: x :: t := by
  obtain ⟨s, u, rfl⟩ := h
  exact ⟨x :: s, u, rfl⟩

/-- Inside an all-rate-limited batch trace, retry `k + 1` is immediately
preceded by its computed backoff sleep. -/
theorem rlTrace_pair_infix (jitter : Nat → ℚ) (b docs : Nat) :
    ∀ fuel a k, a ≤ k → k + 1 < a + fuel →
      [UploadEvent.sleep (2 ^ k * BATCH_DELAY + jitter k),
       UploadEvent.bulkWrite b docs (k + 1)] <:+:
        rlTrace jitter b docs fuel a := by
  intro fuel
  induction fuel with
  | zero =>
    intro a k h1 h2
    omega
  | succ f ih =>
    intro a k h1 h2
    by_cases hk : k = a
    · subst hk
      have hf : 0 < f := by omega
      obtain ⟨g, rfl⟩ : ∃ g, f = g + 1 := ⟨f - 1, by omega⟩
      exact ⟨[UploadEvent.bulkWrite b docs k],
        UploadEvent.sleep (2 ^ (k + 1) * BATCH_DELAY + jitter (k + 1)) ::
          rlTrace jitter b docs g (k + 2), rfl⟩
    · have h := ih (a + 1) k (by omega) (by omega)
      exact infix_cons_lift _ (infix_cons_lift _ h)

theorem sum_map_range_indicator {c : Nat} (f : Nat → Nat) (b m : Nat)
    (hb : b < m) (hf : ∀ x, f x = if x = b then c else 0) :
    ((List.range m).map f).sum = c := by
  induction m with
  | zero => omega
  | succ m ih =>
    rw [List.range_succ, List.map_append, List.sum_append]
    simp only [List.map_cons, List.map_nil, List.sum_cons, List.sum_nil]
    by_cases hmb : m = b
    · subst hmb
      have hz : ((List.range m).map f).sum = 0 := by
        refine List.sum_eq_zero ?_
        intro x hx
        simp only [List.mem_map, List.mem_range] at hx
        obtain ⟨y, hy, rfl⟩ := hx
        rw [hf y, if_neg (by omega)]
      rw [hz, hf m, if_pos rfl]
      simp
    · rw [ih (by omega), hf m, if_neg hmb]
      simp

/-! ## C3 -/

/-- C3: if every bulk-write attempt is rate limited, the uploader makes
`max_retries + 1 = 6` write attempts per batch (the initial attempt plus
exactly `max_retries = 5` retries), abandons every batch (zero documents
inserted) and proceeds through all batches; the `k`-th retry
(`k = 0, …, 4`) is immediately preceded by a backoff sleep of
`2 ^ k * BATCH_DELAY` plus a jitter term bounded by `0.5` seconds. -/
theorem insert_rate_limited_retries {α : Type} (res : Nat → Nat → WriteResult)
    (jitter : Nat → Nat → ℚ) (single : Nat → Nat → Bool) (data : List α)
    (bs : Nat) (hRL : ∀ b a, res b a = WriteResult.rateLimited)
    (hj : ∀ b k, 0 ≤ jitter b k ∧ jitter b k < 1 / 2) :
    (insert_in_batches res jitter single data bs).1 = 0 ∧
    ∀ b, b < (chunksOf bs data).length →
      (insert_in_batches res jitter single data bs).2.countP
        (isWriteOfBatch b) = max_retries + 1 ∧
      ∀ k, k < max_retries →
        ([UploadEvent.sleep (2 ^ k * BATCH_DELAY + jitter b k),
          UploadEvent.bulkWrite b ((chunksOf bs data).getD b []).length
            (k + 1)] <:+:
              (insert_in_batches res jitter single data bs).2) ∧
        0 ≤ jitter b k ∧ jitter b k < 1 / 2 := by
  have hins : insert_in_batches res jitter single data bs =
      ((((List.range (chunksOf bs data).length).map fun b =>
          batchLoop (res b) (jitter b) (single b) b
            ((chunksOf bs data).getD b []).length
            (max_retries + 1) 0).map Prod.fst).sum,
       (((List.range (chunksOf bs data).length).map fun b =>
          batchLoop (res b) (jitter b) (single b) b
            ((chunksOf bs data).getD b []).length
            (max_retries + 1) 0).map Prod.snd).flatten) := rfl
  have hmapeq : ((List.range (chunksOf bs data).length).map fun b =>
      batchLoop (res b) (jitter b) (single b) b
        ((chunksOf bs data).getD b []).length (max_retries + 1) 0) =
      ((List.range (chunksOf bs data).length).map fun b =>
        ((0 : Nat), rlTrace (jitter b) b
          ((chunksOf bs data).getD b []).length (max_retries + 1) 0)) :=
    List.map_congr_left fun b _ => batchLoop_rateLimited (hRL b) _ 0 rfl
  rw [hins, hmapeq]
  constructor
  · refine List.sum_eq_zero ?_
    intro x hx
    simp only [List.map_map, List.mem_map] at hx
    obtain ⟨y, _, rfl⟩ := hx
    rfl
  · intro b hb
    simp only [List.map_map]
    have hT : ((List.range (chunksOf bs data).length).map
        ((fun p : Nat × List UploadEvent => p.2) ∘ fun b =>
          ((0 : Nat), rlTrace (jitter b) b
            ((chunksOf bs data).getD b []).length (max_retries + 1) 0))) =
        ((List.range (chunksOf bs data).length).map fun b =>
          rlTrace (jitter b) b ((chunksOf bs data).getD b []).length
            (max_retries + 1) 0) := rfl
    constructor
    · rw [hT, List.countP_flatten, List.map_map]
      refine sum_map_range_indicator _ b _ hb ?_
      intro x
      by_cases hx : x = b
      · subst hx
        simp [Function.comp, rlTrace_countP_self]
      · simp [Function.comp, rlTrace_countP_other _ _ hx, hx]
    · intro k hk
      refine ⟨?_, (hj b k).1, (hj b k).2⟩
      rw [hT]
      have hblock : rlTrace (jitter b) b
          ((chunksOf bs data).getD b []).length (max_retries + 1) 0 ∈
          ((List.range (chunksOf bs data).length).map fun b =>
            rlTrace (jitter b) b ((chunksOf bs data).getD b []).length
              (max_retries + 1) 0) :=
        List.mem_map_of_mem _ (List.mem_range.mpr hb)
      refine List.IsInfix.trans ?_ (List.infix_of_mem_flatten hblock)
      exact rlTrace_pair_infix (jitter b) b _ (max_retries + 1) 0 k
        (Nat.zero_le _) (by omega)

theorem insert_rate_limited_retries_witness :
    (insert_in_batches (fun _ _ => WriteResult.rateLimited) (fun _ _ => 0)
      (fun _ _ => true) ([0] : List Nat) 10).1 = 0 ∧
    ∀ b, b < (chunksOf 10 ([0] : List Nat)).length →
      (insert_in_batches (fun _ _ => WriteResult.rateLimited) (fun _ _ => 0)
        (fun _ _ => true) ([0] : List Nat) 10).2.countP
          (isWriteOfBatch b) = max_retries + 1 ∧
      ∀ k, k < max_retries →
        ([UploadEvent.sleep (2 ^ k * BATCH_DELAY + (0 : ℚ)),
          UploadEvent.bulkWrite b
            ((chunksOf 10 ([0] : List Nat)).getD b []).length (k + 1)] <:+:
            (insert_in_batches (fun _ _ => WriteResult.rateLimited)
              (fun _ _ => 0) (fun _ _ => true) ([0] : List Nat) 10).2) ∧
        (0 : ℚ) ≤ 0 ∧ (0 : ℚ) < 1 / 2 :=
  insert_rate_limited_retries (fun _ _ => WriteResult.rateLimited)
    (fun _ _ => 0) (fun _ _ => true) ([0] : List Nat) 10
    (fun _ _ => rfl) (fun _ _ => by norm_num)

/-! ## C9 -/

/-- Every bulk-write event issued by the attempt loop of one batch carries
that batch's index and document count. -/
theorem batchLoop_bulkWrite_mem {res : Nat → WriteResult} {jitter : Nat → ℚ}
    {single : Nat → Bool} {b d : Nat} :
    ∀ fuel attempt {b' d' a'},
      UploadEvent.bulkWrite b' d' a' ∈
        (batchLoop res jitter single b d fuel attempt).2 →
      b' = b ∧ d' = d := by
  intro fuel
  induction fuel with
  | zero =>
    intro attempt b' d' a' h
    simp [batchLoop] at h
  | succ f ih =>
    intro attempt b' d' a' h
    cases hres : res attempt with
    | ok n =>
      simp [batchLoop, hres] at h
      rcases h with ⟨h1, h2, _⟩
      exact ⟨h1, h2⟩
    | bulkErr nIns nErr =>
      simp [batchLoop, hres] at h
      rcases h with ⟨h1, h2, _⟩
      exact ⟨h1, h2⟩
    | rateLimited =>
      simp only [batchLoop, hres] at h
      by_cases hif : max_retries < attempt + 1
      · rw [if_pos hif] at h
        simp at h
        rcases h with ⟨h1, h2, _⟩
        exact ⟨h1, h2⟩
      · rw [if_neg hif] at h
        simp only [List.mem_cons] at h
        rcases h with h | h | h
        · rcases UploadEvent.bulkWrite.inj h with ⟨h1, h2, _⟩
          exact ⟨h1, h2⟩
        · cases h
        · exact ih (attempt + 1) h
    | otherErr =>
      simp only [batchLoop, hres, List.mem_cons] at h
      rcases h with h | h
      · rcases UploadEvent.bulkWrite.inj h with ⟨h1, h2, _⟩
        exact ⟨h1, h2⟩
      · rw [List.mem_flatten] at h
        obtain ⟨l, hl, hel⟩ := h
        simp only [List.mem_map, List.mem_range] at hl
        obtain ⟨j, _, rfl⟩ := hl
        by_cases hs : single j = true <;> simp [hs] at hel

/-- Every bulk write of `insert_in_batches` writes exactly one of the
`data[i:i+batch_size]` slices. -/
theorem insert_in_batches_write_docs {α : Type} {res : Nat → Nat → WriteResult}
    {jitter : Nat → Nat → ℚ} {single : Nat → Nat → Bool} {data : List α}
    {bs : Nat} {b d a : Nat}
    (h : UploadEvent.bulkWrite b d a ∈
      (insert_in_batches res jitter single data bs).2) :
    b < (chunksOf bs data).length ∧
    d = ((chunksOf bs data).getD b []).length := by
  have hins : (insert_in_batches res jitter single data bs).2 =
      (((List.range (chunksOf bs data).length).map fun b' =>
        batchLoop (res b') (jitter b') (single b') b'
          ((chunksOf bs data).getD b' []).length
          (max_retries + 1) 0).map Prod.snd).flatten := rfl
  rw [hins, List.mem_flatten] at h
  obtain ⟨l, hl, hel⟩ := h
  simp only [List.map_map, List.mem_map, List.mem_range] at hl
  obtain ⟨b0, hb0, rfl⟩ := hl
  obtain ⟨rfl, rfl⟩ := batchLoop_bulkWrite_mem _ _ hel
  exact ⟨hb0, rfl⟩

/-- C9 counterexample: the module constant `BATCH_SIZE = 5` does not
govern the writes.  `insert_in_batches` is called without a `batch_size`
argument, so its default of 10 applies, and a 10-document data set is
written in a single bulk write of 10 documents, exceeding `BATCH_SIZE`. -/
theorem batch_size_constant_cex :
    UploadEvent.bulkWrite 0 10 0 ∈
      (insert_in_batches (fun _ _ => WriteResult.ok 10) (fun _ _ => 0)
        (fun _ _ => true) (List.range 10)
        insert_in_batches_default_batch_size).2 ∧
    BATCH_SIZE < 10 := by
  constructor
  · decide
  · decide

/-- C9, amended: the number of documents per write call is governed by the
`batch_size` parameter of `insert_in_batches` (whose default, 10, is what
the upload call sites use), not by the unused module constant
`BATCH_SIZE = 5`: every bulk write carries at most `batch_size` documents,
and every write for a batch other than the last carries exactly
`batch_size`. -/
theorem insert_in_batches_write_sizes {α : Type}
    (res : Nat → Nat → WriteResult) (jitter : Nat → Nat → ℚ)
    (single : Nat → Nat → Bool) (data : List α) (bs : Nat) (hbs : 0 < bs) :
    ∀ b d a, UploadEvent.bulkWrite b d a ∈
      (insert_in_batches res jitter single data bs).2 →
      d ≤ bs ∧ (b + 1 < (chunksOf bs data).length → d = bs) := by
  intro b d a h
  obtain ⟨hb, rfl⟩ := insert_in_batches_write_docs h
  exact chunksOf_getD_length hbs data.length data le_rfl b hb

theorem insert_in_batches_write_sizes_witness :
    10 ≤ insert_in_batches_default_batch_size ∧
    (0 + 1 < (chunksOf insert_in_batches_default_batch_size
        (List.range 10)).length →
      10 = insert_in_batches_default_batch_size) :=
  insert_in_batches_write_sizes (fun _ _ => WriteResult.ok 10)
    (fun _ _ => (0 : ℚ)) (fun _ _ => true) (List.range 10)
    insert_in_batches_default_batch_size (by decide) 0 10 0 (by decide)

/-! ## Decimal-identifier lemmas (C6) -/

/-- Value of a little-endian digit list. -/
def fromDigitsRev : List Nat → Nat
  | [] => 0
  | d :: rest => d + 10 * fromDigitsRev rest

theorem toDigitsRev_zero (f : Nat) : toDigitsRev f 0 = [] := by
  cases f <;> rfl

theorem toDigitsRev_congr :
    ∀ f1 f2 n, n ≤ f1 → n ≤ f2 → toDigitsRev f1 n = toDigitsRev f2 n := by
  intro f1
  induction f1 with
  | zero =>
    intro f2 n h1 _
    have : n = 0 := by omega
    subst this
    rw [toDigitsRev_zero, toDigitsRev_zero]
  | succ f ih =>
    intro f2 n h1 h2
    cases n with
    | zero => rw [toDigitsRev_zero, toDigitsRev_zero]
    | succ m =>
      cases f2 with
      | zero => omega
      | succ g =>
        show ((m + 1) % 10) :: toDigitsRev f ((m + 1) / 10) =
          ((m + 1) % 10) :: toDigitsRev g ((m + 1) / 10)
        have hdiv : (m + 1) / 10 < m + 1 := Nat.div_lt_self (by omega) (by omega)
        rw [ih g ((m + 1) / 10) (by omega) (by omega)]

theorem toDigitsRev_lt (d : Nat) :
    ∀ f n, d ∈ toDigitsRev f n → d < 10 := by
  intro f
  induction f with
  | zero =>
    intro n h
    simp [toDigitsRev] at h
  | succ f ih =>
    intro n h
    cases n with
    | zero => simp [toDigitsRev] at h
    | succ m =>
      rcases List.mem_cons.mp h with h | h
      · subst h
        exact Nat.mod_lt _ (by omega)
      · exact ih _ h

theorem fromDigitsRev_toDigitsRev :
    ∀ f n, n ≤ f → fromDigitsRev (toDigitsRev f n) = n := by
  intro f
  induction f with
  | zero =>
    intro n h
    have : n = 0 := by omega
    subst this
    rfl
  | succ f ih =>
    intro n h
    cases n with
    | zero => rfl
    | succ m =>
      show (m + 1) % 10 + 10 * fromDigitsRev (toDigitsRev f ((m + 1) / 10)) =
        m + 1
      have hdiv : (m + 1) / 10 < m + 1 := Nat.div_lt_self (by omega) (by omega)
      rw [ih ((m + 1) / 10) (by omega)]
      exact Nat.mod_add_div (m + 1) 10

theorem toDigitsRev_getLast?_ne_zero :
    ∀ f n, 1 ≤ n → n ≤ f →
      ∀ d, (toDigitsRev f n).getLast? = some d → d ≠ 0 := by
  intro f
  induction f with
  | zero => intro n h1 h2; omega
  | succ f ih =>
    intro n h1 h2 d hd
    cases n with
    | zero => omega
    | succ m =>
      by_cases hdiv : (m + 1) / 10 = 0
      · have hrest : toDigitsRev f ((m + 1) / 10) = [] := by
          rw [hdiv, toDigitsRev_zero]
        have : toDigitsRev (f + 1) (m + 1) = [(m + 1) % 10] := by
          show ((m + 1) % 10) :: toDigitsRev f ((m + 1) / 10) = _
          rw [hrest]
        rw [this] at hd
        simp at hd
        subst hd
        have : m + 1 < 10 := by omega
        omega
      · have hlt : (m + 1) / 10 < m + 1 :=
          Nat.div_lt_self (by omega) (by omega)
        have hrest : toDigitsRev f ((m + 1) / 10) ≠ [] := by
          obtain ⟨m', hm'⟩ : ∃ m', (m + 1) / 10 = m' + 1 :=
            ⟨(m + 1) / 10 - 1, by omega⟩
          cases f with
          | zero => omega
          | succ g =>
            rw [hm']
            show ((m' + 1) % 10) :: toDigitsRev g ((m' + 1) / 10) ≠ []
            simp
        obtain ⟨y, ys, hys⟩ := List.exists_cons_of_ne_nil hrest
        rw [show toDigitsRev (f + 1) (m + 1) =
            ((m + 1) % 10) :: toDigitsRev f ((m + 1) / 10) from rfl,
          hys, List.getLast?_cons_cons] at hd
        refine ih ((m + 1) / 10) (by omega) (by omega) d ?_
        rw [hys]
        exact hd

theorem toDigitsRev_length_le :
    ∀ k f n, n < 10 ^ k → (toDigitsRev f n).length ≤ k := by
  intro k
  induction k with
  | zero =>
    intro f n h
    have : n = 0 := by simpa using h
    subst this
    rw [toDigitsRev_zero]
    simp
  | succ k ih =>
    intro f n h
    cases n with
    | zero => rw [toDigitsRev_zero]; simp
    | succ m =>
      cases f with
      | zero => simp [toDigitsRev]
      | succ f =>
        show (((m + 1) % 10) :: toDigitsRev f ((m + 1) / 10)).length ≤ k + 1
        simp only [List.length_cons]
        have hdiv : (m + 1) / 10 < 10 ^ k := by
          rw [Nat.div_lt_iff_lt_mul (by omega : 0 < 10)]
          calc m + 1 < 10 ^ (k + 1) := h
          _ = 10 ^ k * 10 := by ring
        have := ih f ((m + 1) / 10) hdiv
        omega

/-- Numeric value of a decimal digit character. -/
def charVal (c : Char) : Nat := c.toNat - 48

theorem charVal_digitChar {d : Nat} (h : d < 10) :
    charVal (Nat.digitChar d) = d := by
  interval_cases d <;> decide

theorem digitChar_ne_zero_char {d : Nat} (h : d < 10) (h0 : d ≠ 0) :
    Nat.digitChar d ≠ '0' := by
  interval_cases d <;> simp_all <;> decide

theorem digitChar_isDigit {d : Nat} (h : d < 10) :
    (Nat.digitChar d).isDigit = true := by
  interval_cases d <;> decide

theorem decChars_ne_nil {n : Nat} (h : 1 ≤ n) : decChars n ≠ [] := by
  unfold decChars
  obtain ⟨m, rfl⟩ : ∃ m, n = m + 1 := ⟨n - 1, by omega⟩
  cases m with
  | zero => decide
  | succ m' =>
    show ((((m' + 2) % 10) :: toDigitsRev (m' + 1) ((m' + 2) / 10)).map
      Nat.digitChar).reverse ≠ []
    simp

theorem decChars_head?_ne_zero {n : Nat} (h : 1 ≤ n) :
    ∀ c, (decChars n).head? = some c → c ≠ '0' := by
  intro c hc
  unfold decChars at hc
  rw [List.head?_reverse] at hc
  -- the last mapped character is the leading digit
  have hne : toDigitsRev n n ≠ [] := by
    intro hnil
    have := decChars_ne_nil h
    unfold decChars at this
    rw [hnil] at this
    exact this rfl
  obtain ⟨d, hd⟩ : ∃ d, (toDigitsRev n n).getLast? = some d := by
    cases hgl : (toDigitsRev n n).getLast? with
    | none => exact absurd (List.getLast?_eq_none_iff.mp hgl) hne
    | some d => exact ⟨d, rfl⟩
  have hmap : ((toDigitsRev n n).map Nat.digitChar).getLast? =
      some (Nat.digitChar d) := by
    rw [List.getLast?_map, hd]
    rfl
  rw [hmap] at hc
  have hdc := Option.some.inj hc
  have hd10 : d < 10 := by
    refine toDigitsRev_lt d n n ?_
    obtain ⟨hne', heq⟩ := List.mem_getLast?_eq_getLast
      (l := toDigitsRev n n) (x := d) (by rw [hd]; rfl)
    rw [heq]
    exact List.getLast_mem hne'
  have hd0 : d ≠ 0 := toDigitsRev_getLast?_ne_zero n n h le_rfl d hd
  rw [← hdc]
  exact digitChar_ne_zero_char hd10 hd0

/-- Inverse of the padded decimal rendering: strip the zero padding, then
read the digits. -/
def parsePadded (l : List Char) : Nat :=
  fromDigitsRev (((l.dropWhile fun c => c == '0').map charVal).reverse)

theorem dropWhile_replicate_zero (k : Nat) (l : List Char) :
    List.dropWhile (fun c => c == '0') (List.replicate k '0' ++ l) =
      List.dropWhile (fun c => c == '0') l := by
  induction k with
  | zero => rfl
  | succ k ih =>
    rw [List.replicate_succ, List.cons_append, List.dropWhile_cons]
    simp only [ih]
    simp

theorem parsePadded_fmtPadChars (w : Nat) {n : Nat} (hn : 1 ≤ n) :
    parsePadded (fmtPadChars w n) = n := by
  unfold parsePadded fmtPadChars
  rw [dropWhile_replicate_zero]
  obtain ⟨c, cs, hcons⟩ := List.exists_cons_of_ne_nil (decChars_ne_nil hn)
  have hc : c ≠ '0' := decChars_head?_ne_zero hn c (by rw [hcons]; rfl)
  rw [hcons, List.dropWhile_cons, if_neg (by simp [hc]), ← hcons]
  unfold decChars
  rw [List.map_reverse, List.reverse_reverse, List.map_map]
  have hid : (toDigitsRev n n).map (charVal ∘ Nat.digitChar) = toDigitsRev n n := by
    have : ∀ d ∈ toDigitsRev n n, (charVal ∘ Nat.digitChar) d = id d := by
      intro d hd
      exact charVal_digitChar (toDigitsRev_lt d n n hd)
    rw [List.map_congr_left this, List.map_id]
  rw [hid]
  exact fromDigitsRev_toDigitsRev n n le_rfl

theorem idStr_inj (c : Char) (w : Nat) {a b : Nat} (ha : 1 ≤ a)
    (hb : 1 ≤ b) (h : idStr c w a = idStr c w b) : a = b := by
  have hdata : c :: fmtPadChars w a = c :: fmtPadChars w b :=
    congrArg String.data h
  have hpad : fmtPadChars w a = fmtPadChars w b :=
    (List.cons.inj hdata).2
  have := congrArg parsePadded hpad
  rwa [parsePadded_fmtPadChars w ha, parsePadded_fmtPadChars w hb] at this

/-- The fixed-width identifier format: prefix character followed by
exactly `w` decimal digit characters. -/
def matchesIdFormat (c : Char) (w : Nat) (s : String) : Prop :=
  s.data.length = w + 1 ∧ s.data.head? = some c ∧
    ∀ ch ∈ s.data.tail, ch.isDigit = true

theorem idStr_format {c : Char} {w n : Nat} (h1 : 1 ≤ n) (h2 : n < 10 ^ w) :
    matchesIdFormat c w (idStr c w n) := by
  have hdlen : (decChars n).length ≤ w := by
    unfold decChars
    rw [List.length_reverse, List.length_map]
    exact toDigitsRev_length_le w n n h2
  refine ⟨?_, rfl, ?_⟩
  · show (c :: fmtPadChars w n).length = w + 1
    unfold fmtPadChars
    simp only [List.length_cons, List.length_append, List.length_replicate]
    omega
  · intro ch hch
    show ch.isDigit = true
    have hch' : ch ∈ List.replicate (w - (decChars n).length) '0' ++
        decChars n := hch
    rcases List.mem_append.mp hch' with h | h
    · rw [List.eq_of_mem_replicate h]
      decide
    · unfold decChars at h
      rw [List.mem_reverse] at h
      obtain ⟨d, hd, rfl⟩ := List.mem_map.mp h
      exact digitChar_isDigit (toDigitsRev_lt d n n hd)

theorem idStr_succ_injective (c : Char) (w : Nat) :
    Function.Injective fun k => idStr c w (k + 1) := by
  intro a b h
  have := idStr_inj c w (by omega) (by omega) h
  omega

theorem generate_products_ids (r : ProductRand) (np : Nat) :
    (generate_products r np).map (·.product_id) =
      (List.range np).map fun k => idStr 'P' 4 (k + 1) := by
  unfold generate_products
  rw [List.map_map]
  rfl

theorem generate_customers_ids (r : CustomerRand) (nc : Nat) :
    (generate_customers r nc).map (·.customer_id) =
      (List.range nc).map fun k => idStr 'C' 5 (k + 1) := by
  unfold generate_customers
  rw [List.map_map]
  rfl

theorem generate_orders_ids (r : OrderRand) (customers : List Customer)
    (products : List Product) (no : Nat) :
    (generate_orders r customers products no).map (·.order_id) =
      (List.range no).map fun k => idStr 'O' 6 (k + 1) := by
  unfold generate_orders
  rw [List.map_map]
  rfl

theorem mkReview_review_id {r : ReviewRand} {orders : List Order} {i : Nat}
    {rv : Review} (h : mkReview r orders i = some rv) :
    rv.review_id = idStr 'R' 5 i := by
  unfold mkReview at h
  by_cases hempty : ((pyChoice orders (r.orderR i)).items).isEmpty
  · rw [if_pos hempty] at h
    cases h
  · rw [if_neg hempty] at h
    have heq := Option.some.inj h
    rw [← heq]

theorem mkReview_some (r : ReviewRand) (orders : List Order) (i : Nat)
    (ho : orders ≠ []) (hitems : ∀ o ∈ orders, o.items ≠ []) :
    (mkReview r orders i).map (·.review_id) = some (idStr 'R' 5 i) := by
  unfold mkReview
  have hne : ((pyChoice orders (r.orderR i)).items) ≠ [] :=
    hitems _ (pyChoice_mem ho _)
  rw [if_neg (by simpa [List.isEmpty_iff] using hne)]
  rfl

theorem map_filterMap_of_some {α β γ : Type} {f : α → Option β} {g : β → γ}
    {h : α → γ} (l : List α) (H : ∀ a ∈ l, (f a).map g = some (h a)) :
    (l.filterMap f).map g = l.map h := by
  induction l with
  | nil => rfl
  | cons a l ih =>
    have Ha := H a (List.mem_cons_self a l)
    cases hfa : f a with
    | none =>
      rw [hfa] at Ha
      cases Ha
    | some b =>
      rw [hfa] at Ha
      have hgb : g b = h a := Option.some.inj Ha
      simp only [List.filterMap_cons, hfa, List.map_cons, hgb]
      rw [ih fun x hx => H x (List.mem_cons_of_mem _ hx)]

theorem generate_reviews_ids (r : ReviewRand) (orders : List Order) (n : Nat)
    (ho : orders ≠ []) (hitems : ∀ o ∈ orders, o.items ≠ []) :
    (generate_reviews r orders n).map (·.review_id) =
      (List.range n).map fun k => idStr 'R' 5 (k + 1) := by
  unfold generate_reviews
  refine map_filterMap_of_some _ ?_
  intro k _
  exact mkReview_some r orders (k + 1) ho hitems

theorem generate_orders_items_ne_nil (r : OrderRand)
    (customers : List Customer) (products : List Product) (n : Nat) :
    ∀ o ∈ generate_orders r customers products n, o.items ≠ [] := by
  intro o ho
  obtain ⟨k, _, rfl⟩ := mem_generate_orders.mp ho
  rw [mkOrder_items]
  unfold orderPicks
  intro hc
  simp only [List.map_eq_nil_iff, List.range_eq_nil] at hc
  unfold pyRandint at hc
  omega

theorem generate_reviews_nodup (r : ReviewRand) (orders : List Order)
    (n : Nat) : ((generate_reviews r orders n).map (·.review_id)).Nodup := by
  unfold generate_reviews
  rw [List.map_filterMap]
  refine List.Nodup.filterMap ?_ (List.nodup_range n)
  intro a a' s ha ha'
  simp only [Option.mem_def, Option.map_eq_some'] at ha ha'
  obtain ⟨rv, hrv, hrs⟩ := ha
  obtain ⟨rv', hrv', hrs'⟩ := ha'
  have h1 := mkReview_review_id hrv
  have h2 := mkReview_review_id hrv'
  have : idStr 'R' 5 (a + 1) = idStr 'R' 5 (a' + 1) := by
    rw [← h1, ← h2, hrs, hrs']
  have := idStr_inj 'R' 5 (by omega) (by omega) this
  omega

/-! ## C6 -/

/-- C6 counterexample: the fixed-width claim fails once the count exceeds
the width capacity.  `generate_products` with `n = 10000` produces the
identifier `P10000`, which has five digits, not four (Python's `{i:04d}`
zero-pads to a MINIMUM width of four). -/
theorem product_id_width_cex :
    ∃ p ∈ generate_products zeroProductRand 10000,
      ¬ matchesIdFormat 'P' 4 p.product_id := by
  refine ⟨mkProduct zeroProductRand 10000,
    mem_generate_products.mpr ⟨9999, by omega, rfl⟩, ?_⟩
  intro h
  have hlen := h.1
  revert hlen
  decide

/-- C6, amended: within each generated collection all identifiers are
pairwise distinct and assigned sequentially from 1 with the kind's prefix
and zero padding to a minimum width (4 digits for products, 5 for
customers, 6 for orders, 5 for reviews); they match the exact fixed-width
format whenever the requested count does not exceed the width capacity
(`n ≤ 9999` for products, `99999` for customers and reviews, `999999` for
orders) — for larger counts the rendering grows beyond the fixed width.
Review ids enumerate `1..n` without gaps whenever the orders list is
non-empty and every order has items (true of all generated orders). -/
theorem generated_id_uniqueness_format (rp : ProductRand)
    (rc : CustomerRand) (ro : OrderRand) (rr : ReviewRand)
    (customers : List Customer) (products : List Product)
    (orders : List Order) (np nc no nr : Nat) (hnp : np ≤ 9999)
    (hnc : nc ≤ 99999) (hno : no ≤ 999999) (hnr : nr ≤ 99999) :
    (((generate_products rp np).map (·.product_id)).Nodup ∧
     (generate_products rp np).map (·.product_id) =
       (List.range np).map (fun k => idStr 'P' 4 (k + 1)) ∧
     ∀ s ∈ (generate_products rp np).map (·.product_id),
       matchesIdFormat 'P' 4 s) ∧
    (((generate_customers rc nc).map (·.customer_id)).Nodup ∧
     (generate_customers rc nc).map (·.customer_id) =
       (List.range nc).map (fun k => idStr 'C' 5 (k + 1)) ∧
     ∀ s ∈ (generate_customers rc nc).map (·.customer_id),
       matchesIdFormat 'C' 5 s) ∧
    (((generate_orders ro customers products no).map (·.order_id)).Nodup ∧
     (generate_orders ro customers products no).map (·.order_id) =
       (List.range no).map (fun k => idStr 'O' 6 (k + 1)) ∧
     ∀ s ∈ (generate_orders ro customers products no).map (·.order_id),
       matchesIdFormat 'O' 6 s) ∧
    (((generate_reviews rr orders nr).map (·.review_id)).Nodup ∧
     (∀ rv ∈ generate_reviews rr orders nr,
       ∃ i, 1 ≤ i ∧ i ≤ nr ∧ rv.review_id = idStr 'R' 5 i ∧
         matchesIdFormat 'R' 5 rv.review_id) ∧
     (orders ≠ [] → (∀ o ∈ orders, o.items ≠ []) →
       (generate_reviews rr orders nr).map (·.review_id) =
         (List.range nr).map fun k => idStr 'R' 5 (k + 1))) := by
  refine ⟨⟨?_, generate_products_ids rp np, ?_⟩,
    ⟨?_, generate_customers_ids rc nc, ?_⟩,
    ⟨?_, generate_orders_ids ro customers products no, ?_⟩,
    generate_reviews_nodup rr orders nr, ?_,
    fun ho hitems => generate_reviews_ids rr orders nr ho hitems⟩
  · rw [generate_products_ids]
    exact (List.nodup_range np).map (idStr_succ_injective 'P' 4)
  · rw [generate_products_ids]
    intro s hs
    obtain ⟨k, hk, rfl⟩ := List.mem_map.mp hs
    rw [List.mem_range] at hk
    exact idStr_format (by omega) (by norm_num; omega)
  · rw [generate_customers_ids]
    exact (List.nodup_range nc).map (idStr_succ_injective 'C' 5)
  · rw [generate_customers_ids]
    intro s hs
    obtain ⟨k, hk, rfl⟩ := List.mem_map.mp hs
    rw [List.mem_range] at hk
    exact idStr_format (by omega) (by norm_num; omega)
  · rw [generate_orders_ids]
    exact (List.nodup_range no).map (idStr_succ_injective 'O' 6)
  · rw [generate_orders_ids]
    intro s hs
    obtain ⟨k, hk, rfl⟩ := List.mem_map.mp hs
    rw [List.mem_range] at hk
    exact idStr_format (by omega) (by norm_num; omega)
  · intro rv hrv
    simp only [generate_reviews, List.mem_filterMap, List.mem_range] at hrv
    obtain ⟨k, hk, hmk⟩ := hrv
    refine ⟨k + 1, by omega, by omega, mkReview_review_id hmk, ?_⟩
    rw [mkReview_review_id hmk]
    exact idStr_format (by omega) (by norm_num; omega)

theorem generated_id_uniqueness_format_witness :
    (((generate_products zeroProductRand 2).map (·.product_id)).Nodup ∧
     (generate_products zeroProductRand 2).map (·.product_id) =
       (List.range 2).map (fun k => idStr 'P' 4 (k + 1)) ∧
     ∀ s ∈ (generate_products zeroProductRand 2).map (·.product_id),
       matchesIdFormat 'P' 4 s) ∧
    (((generate_customers zeroCustomerRand 2).map (·.customer_id)).Nodup ∧
     (generate_customers zeroCustomerRand 2).map (·.customer_id) =
       (List.range 2).map (fun k => idStr 'C' 5 (k + 1)) ∧
     ∀ s ∈ (generate_customers zeroCustomerRand 2).map (·.customer_id),
       matchesIdFormat 'C' 5 s) ∧
    (((generate_orders zeroOrderRand (generate_customers zeroCustomerRand 2)
        (generate_products zeroProductRand 2) 2).map (·.order_id)).Nodup ∧
     (generate_orders zeroOrderRand (generate_customers zeroCustomerRand 2)
        (generate_products zeroProductRand 2) 2).map (·.order_id) =
       (List.range 2).map (fun k => idStr 'O' 6 (k + 1)) ∧
     ∀ s ∈ (generate_orders zeroOrderRand
        (generate_customers zeroCustomerRand 2)
        (generate_products zeroProductRand 2) 2).map (·.order_id),
       matchesIdFormat 'O' 6 s) ∧
    (((generate_reviews zeroReviewRand
        (generate_orders zeroOrderRand (generate_customers zeroCustomerRand 2)
          (generate_products zeroProductRand 2) 2) 2).map
            (·.review_id)).Nodup ∧
     (∀ rv ∈ generate_reviews zeroReviewRand
        (generate_orders zeroOrderRand (generate_customers zeroCustomerRand 2)
          (generate_products zeroProductRand 2) 2) 2,
       ∃ i, 1 ≤ i ∧ i ≤ 2 ∧ rv.review_id = idStr 'R' 5 i ∧
         matchesIdFormat 'R' 5 rv.review_id) ∧
     (generate_orders zeroOrderRand (generate_customers zeroCustomerRand 2)
          (generate_products zeroProductRand 2) 2 ≠ [] →
      (∀ o ∈ generate_orders zeroOrderRand
          (generate_customers zeroCustomerRand 2)
          (generate_products zeroProductRand 2) 2, o.items ≠ []) →
       (generate_reviews zeroReviewRand
          (generate_orders zeroOrderRand
            (generate_customers zeroCustomerRand 2)
            (generate_products zeroProductRand 2) 2) 2).map (·.review_id) =
         (List.range 2).map fun k => idStr 'R' 5 (k + 1))) :=
  generated_id_uniqueness_format zeroProductRand zeroCustomerRand
    zeroOrderRand zeroReviewRand (generate_customers zeroCustomerRand 2)
    (generate_products zeroProductRand 2)
    (generate_orders zeroOrderRand (generate_customers zeroCustomerRand 2)
      (generate_products zeroProductRand 2) 2) 2 2 2 2
    (by omega) (by omega) (by omega) (by omega)

end Retail
